import Mathlib

/-!
Shallow embedding of the Catan-style benchmark engine (`env.py`) and proofs
about its state machine: legal-action enumeration, the step function with its
discard sub-phase, resource transfers, achievements, and win detection.

Randomness is externalized: the two dice draws and the per-player yield
resource choice are passed to `step` as explicit arguments, and the starting
settlement placement choice is passed to `startGame` as a choice function.
Python dict lookups with `.get(k, 0)` are modelled as total functions with
default 0; exceptions are modelled with `Except`.
-/

namespace CatanEnv

/-- The five resource kinds (`Resource` enum in the source). -/
inductive Resource where
  | brick | lumber | wool | grain | ore
deriving DecidableEq, Repr, Fintype

/-- Iteration order used by the source for yields, trades and discards
(`RESOURCE_LIST`). -/
def RESOURCE_LIST : List Resource := [.lumber, .brick, .wool, .grain, .ore]

/-- Building kinds (`BuildingType`). -/
inductive BuildingType where
  | settlement | city
deriving DecidableEq, Repr

/-- A placed building; the owner is a seat index (Python stores the `Player`
object, compared by identity, which coincides with seat index). -/
structure Building where
  owner : Nat
  btype : BuildingType
deriving DecidableEq, Repr

/-- Per-seat state (`Player`): resource holdings (dict with default 0,
modelled as a total function), road set, knights counter. -/
structure Player where
  resources : Resource → Int
  roads : List (Nat × Nat)
  knights_played : Nat

instance : Inhabited Player := ⟨⟨fun _ => 0, [], 0⟩⟩

/-- Dict read `resources.get(res, 0)`. -/
def Player.get (p : Player) (r : Resource) : Int := p.resources r

/-- Dict write `resources[res] = v`. -/
def Player.setRes (p : Player) (r : Resource) (v : Int) : Player :=
  { p with resources := fun r2 => if r2 = r then v else p.resources r2 }

/-- `Player.has_resources`. -/
def Player.has_resources (p : Player) (cost : List (Resource × Int)) : Bool :=
  cost.all (fun rc => p.get rc.1 ≥ rc.2)

/-- `Player.pay_resources`. -/
def Player.pay_resources (p : Player) (cost : List (Resource × Int)) : Player :=
  cost.foldl (fun q rc => q.setRes rc.1 (q.get rc.1 - rc.2)) p

/-- `Player.total_cards`: sum of the holdings (dict values; absent keys are 0,
so summing over all five kinds is equivalent). -/
def Player.total_cards (p : Player) : Int := (RESOURCE_LIST.map p.resources).sum

/-- Standard costs from the source. -/
def SETTLEMENT_COST : List (Resource × Int) := [(.brick, 1), (.lumber, 1), (.wool, 1), (.grain, 1)]

/-- Road cost. -/
def ROAD_COST : List (Resource × Int) := [(.brick, 1), (.lumber, 1)]

/-- City cost. -/
def CITY_COST : List (Resource × Int) := [(.ore, 3), (.grain, 2)]

/-- `StubBoard`: 12 intersections (keys 0..11), 11 paths; path key `(i, i+1)`
is stored at list index `i`. Robber starts at 6. -/
structure Board where
  intersections : List (Option Building)
  paths : List (Option Nat)
  robber_position : Nat
deriving DecidableEq, Repr

/-- Fresh board built by `StubBoard.__init__`. -/
def initBoard : Board :=
  { intersections := List.replicate 12 none
    paths := List.replicate 11 none
    robber_position := 6 }

/-- `StubBoard.get_valid_settlement_coords`: every empty intersection, in key
order. -/
def get_valid_settlement_coords (b : Board) : List Nat :=
  (List.range 12).filter (fun c => (b.intersections.getD c none).isNone)

/-- `StubGame` state: board, players, and the two achievement owners
(seat indices standing for the Python `Player` object references). -/
structure Game where
  board : Board
  players : List Player
  longest_road_owner : Option Nat
  largest_army_owner : Option Nat

/-- `StubGame.build_settlement`. -/
def build_settlement (g : Game) (pidx coords : Nat) (cost_resources : Bool) :
    Except String Game :=
  if 12 ≤ coords ∨ (g.board.intersections.getD coords none).isSome then
    .error ("Invalid or occupied settlement location")
  else
    let p := g.players.getD pidx default
    if cost_resources && !(p.has_resources SETTLEMENT_COST) then
      .error ("Insufficient resources for settlement")
    else
      let p2 := if cost_resources then p.pay_resources SETTLEMENT_COST else p
      .ok { g with
              players := g.players.set pidx p2
              board := { g.board with
                intersections := g.board.intersections.set coords (some ⟨pidx, .settlement⟩) } }

/-- `StubGame.build_road`: the key check `path_coords in paths` is
`p.1 < 11 ∧ p.2 = p.1 + 1` since the key set is fixed at construction. -/
def build_road (g : Game) (pidx : Nat) (path : Nat × Nat) (cost_resources : Bool) :
    Except String Game :=
  if ¬(path.1 < 11 ∧ path.2 = path.1 + 1) then .error ("Invalid road path")
  else if (g.board.paths.getD path.1 none).isSome then .error ("Road already exists")
  else
    let p := g.players.getD pidx default
    if cost_resources && !(p.has_resources ROAD_COST) then
      .error ("Insufficient resources for road")
    else
      let p2 := if cost_resources then p.pay_resources ROAD_COST else p
      let p3 := { p2 with roads := if path ∈ p2.roads then p2.roads else path :: p2.roads }
      .ok { g with
              players := g.players.set pidx p3
              board := { g.board with paths := g.board.paths.set path.1 (some pidx) } }

/-- `StubGame.upgrade_settlement_to_city`. -/
def upgrade_settlement_to_city (g : Game) (pidx coords : Nat) (cost_resources : Bool) :
    Except String Game :=
  match g.board.intersections.getD coords none with
  | none => .error ("No settlement to upgrade")
  | some b =>
    if b.owner ≠ pidx then .error ("No settlement to upgrade")
    else if b.btype ≠ .settlement then .error ("Already a city here")
    else
      let p := g.players.getD pidx default
      if cost_resources && !(p.has_resources CITY_COST) then
        .error ("Insufficient resources for city")
      else
        let p2 := if cost_resources then p.pay_resources CITY_COST else p
        .ok { g with
                players := g.players.set pidx p2
                board := { g.board with
                  intersections := g.board.intersections.set coords (some ⟨pidx, .city⟩) } }

/-- Structural map with index, mirroring the Python `for player in players`
loop that draws one rng choice per player in order. -/
def mapWithIndex (f : Nat → Player → Player) : Nat → List Player → List Player
  | _, [] => []
  | i, p :: ps => f i p :: mapWithIndex f (i + 1) ps

/-- `StubGame.add_yield_for_roll`: give every player one unit of the
rng-chosen resource (`y i` is the choice drawn for player `i`). -/
def add_yield_for_roll (y : Nat → Resource) (g : Game) : Game :=
  { g with players := mapWithIndex (fun i p => p.setRes (y i) (p.get (y i) + 1)) 0 g.players }

/-- `StubGame.get_victory_points`: 1 per settlement, 2 per city, +2 for each
achievement owned. -/
def get_victory_points (g : Game) (pidx : Nat) : Nat :=
  (g.board.intersections.foldl
    (fun acc ob =>
      match ob with
      | some b => if b.owner = pidx then acc + (if b.btype = .city then 2 else 1) else acc
      | none => acc) 0)
  + (if g.longest_road_owner = some pidx then 2 else 0)
  + (if g.largest_army_owner = some pidx then 2 else 0)

/-- Game actions with typed payloads (`Action` + `ActionType`); only the
kinds the engine can construct or handle are modelled, plus `discard`, which
the normal apply block rejects as an unknown type. -/
inductive Action where
  | buildSettlement (coords : Nat)
  | buildRoad (path : Nat × Nat)
  | buildCity (coords : Nat)
  | trade (to_player : Nat) (resource : Resource)
  | bankTrade (give receive : Resource)
  | discard (resource : Resource) (count : Int)
  | endTurn
deriving DecidableEq, Repr

/-- The `ActionType` tag of an action. -/
inductive ActionType where
  | BUILD_SETTLEMENT | BUILD_ROAD | BUILD_CITY | TRADE | BANK_TRADE | DISCARD | END_TURN
deriving DecidableEq, Repr

/-- Kind projection. -/
def Action.kind : Action → ActionType
  | .buildSettlement _ => .BUILD_SETTLEMENT
  | .buildRoad _ => .BUILD_ROAD
  | .buildCity _ => .BUILD_CITY
  | .trade _ _ => .TRADE
  | .bankTrade _ _ => .BANK_TRADE
  | .discard _ _ => .DISCARD
  | .endTurn => .END_TURN

/-- The `info` dict: Python accumulates string keys; we model the keys the
engine writes as optional/boolean fields with the dict-absent defaults. -/
structure Info where
  roll : Option Nat := none
  robber_rolled : Bool := false
  action_failed : Bool := false
  action_succeeded : Option Bool := none
  is_trade : Bool := false
  is_bank_trade : Bool := false
  winner_index : Option Nat := none
deriving DecidableEq, Repr

/-- `GameState` snapshot handed to agents. -/
structure GameState where
  turn : Nat
  current_player_index : Nat
  victory_points : List Nat
  resources : List (List Int)
  longest_road_owner : Option Nat
  largest_army_owner : Option Nat
  robber_position : Nat
  pending_discard : Bool

/-- Engine state (`PyCatanEngine` fields after `start_game`); the benchmark
asserts exactly 4 players, so `num_players` is the literal 4 throughout. -/
structure EngineState where
  target_vp : Nat
  max_turns : Nat
  game : Game
  current_player_index : Nat
  turn : Nat
  pending_discard : Bool
  players_needing_discard : List Nat

/-- `self.game.players[self.current_player_index]`. -/
def currentPlayer (e : EngineState) : Player :=
  e.game.players.getD e.current_player_index default

/-- Holdings of seat `i` at resource `r`. -/
def playerRes (g : Game) (i : Nat) (r : Resource) : Int :=
  (g.players.getD i default).get r

/-- `_player_resources`, in `RESOURCE_LIST` order. -/
def player_resources (g : Game) (i : Nat) : List Int :=
  RESOURCE_LIST.map (fun r => playerRes g i r)

/-- One iteration of the free-settlement seeding loop in `start_game`: pick
an empty intersection (if any) and place a free settlement for seat `idx`
(`build_settlement` cannot fail there, so the error arm keeps the game). -/
def seed_settlement (pick : List Nat → Nat) (g : Game) (idx : Nat) : Game :=
  let cs := get_valid_settlement_coords g.board
  if cs.isEmpty then g
  else
    let coords := cs.getD (pick cs % cs.length) 0
    match build_settlement g idx coords false with
    | .ok g2 => g2
    | .error _ => g

/-- `PyCatanEngine.start_game`: fresh board, 4 players with 2 of each
resource, one free settlement per seat on an rng-chosen empty intersection
(`pick` models `rng.choice`: it selects a position in the offered list). -/
def startGame (tvp mt : Nat) (pick : List Nat → Nat) : EngineState :=
  let g0 : Game :=
    { board := initBoard
      players := List.replicate 4 ⟨fun _ => 2, [], 0⟩
      longest_road_owner := none
      largest_army_owner := none }
  let g := (List.range 4).foldl (seed_settlement pick) g0
  { target_vp := tvp
    max_turns := mt
    game := g
    current_player_index := 0
    turn := 0
    pending_discard := false
    players_needing_discard := [] }

/-- `_settlement_actions`. -/
def settlement_actions (e : EngineState) (p : Player) : List Action :=
  if !(p.has_resources SETTLEMENT_COST) then []
  else (get_valid_settlement_coords e.game.board).map (fun c => .buildSettlement c)

/-- `_road_actions`: iterate the path keys, keeping those the board accepts
(valid key, no owner). -/
def road_actions (e : EngineState) (p : Player) : List Action :=
  if !(p.has_resources ROAD_COST) then []
  else ((List.range 11).filter (fun i => (e.game.board.paths.getD i none).isNone)).map
    (fun i => .buildRoad (i, i + 1))

/-- `_city_actions`. -/
def city_actions (e : EngineState) (p : Player) : List Action :=
  if !(p.has_resources CITY_COST) then []
  else (List.range 12).filterMap (fun c =>
    match e.game.board.intersections.getD c none with
    | some b =>
      if b.owner = e.current_player_index ∧ b.btype = .settlement then
        some (.buildCity c)
      else none
    | none => none)

/-- `_trade_actions`: offer every held resource to every other seat. -/
def trade_actions (e : EngineState) (p : Player) : List Action :=
  if (RESOURCE_LIST.map p.get).sum = 0 then []
  else RESOURCE_LIST.flatMap (fun give =>
    if p.get give ≤ 0 then []
    else (List.range 4).filterMap (fun other =>
      if other = e.current_player_index then none
      else some (.trade other give)))

/-- `_bank_trade_actions`: 4:1 trades for every resource held with ≥ 4 (the
source reads the counts through `_player_resources` of the current seat,
which is the player passed here). -/
def bank_trade_actions (_e : EngineState) (p : Player) : List Action :=
  RESOURCE_LIST.flatMap (fun give =>
    if p.get give ≥ 4 then
      RESOURCE_LIST.filterMap (fun recv =>
        if give ≠ recv then some (.bankTrade give recv) else none)
    else [])

/-- Python `max(RESOURCE_LIST, key=count)`: first resource attaining the
maximal count. -/
def maxResBy (p : Player) : Resource :=
  RESOURCE_LIST.foldl (fun acc r => if p.get r > p.get acc then r else acc) .lumber

/-- `_discard_actions`: discard half (rounded down), with a best-effort
fallback on the most-held resource, and `END_TURN` as last resort. -/
def discard_actions (p : Player) : List Action :=
  let total := p.total_cards
  let discard_count := Int.ediv total 2
  if discard_count = 0 then [.endTurn]
  else
    let acts := RESOURCE_LIST.filterMap (fun r =>
      if p.get r ≥ discard_count ∧ discard_count > 0 then
        some (.discard r discard_count)
      else none)
    let acts2 :=
      if acts.isEmpty ∧ discard_count > 0 then
        let mx := maxResBy p
        if p.get mx > 0 then [.discard mx (min discard_count (p.get mx))] else []
      else acts
    if acts2.isEmpty then [.endTurn] else acts2

/-- The guard `self.pending_discard and self.current_player_index in
self.players_needing_discard` used in both `get_legal_actions` and `step`. -/
def discardPhase (e : EngineState) : Prop :=
  e.pending_discard = true ∧ e.current_player_index ∈ e.players_needing_discard

instance (e : EngineState) : Decidable (discardPhase e) :=
  inferInstanceAs (Decidable (_ ∧ _))

/-- `PyCatanEngine.get_legal_actions`. -/
def get_legal_actions (e : EngineState) : List Action :=
  let p := currentPlayer e
  if discardPhase e then discard_actions p
  else
    settlement_actions e p ++ road_actions e p ++ city_actions e p
      ++ trade_actions e p ++ bank_trade_actions e p ++ [.endTurn]

/-- `_apply_trade`: move one unit of `r` from seat `from_idx` to seat
`to_idx`; the index reads happen before the balance check (an out-of-range
recipient raises, caught by the apply block). -/
def apply_trade (g : Game) (from_idx to_idx : Nat) (r : Resource) : Except String Game :=
  if g.players.length ≤ from_idx then .error ("bad giver index")
  else if g.players.length ≤ to_idx then .error ("bad recipient index")
  else
    let fp := g.players.getD from_idx default
    if fp.get r ≤ 0 then .error ("giver does not have the resource to trade")
    else
      let g1 := { g with players := g.players.set from_idx (fp.setRes r (fp.get r - 1)) }
      let tp := g1.players.getD to_idx default
      .ok { g1 with players := g1.players.set to_idx (tp.setRes r (tp.get r + 1)) }

/-- `_apply_bank_trade`: 4:1 with the bank, mutating only the given player.
When `give = recv` the increment reads the already-decremented balance, as in
the source. -/
def apply_bank_trade (p : Player) (give recv : Resource) : Except String Player :=
  if p.get give < 4 then .error ("Need 4 for bank trade")
  else
    let p1 := p.setRes give (p.get give - 4)
    .ok (p1.setRes recv (p1.get recv + 1))

/-- `_apply_discard`: `END_TURN` is a no-op, `DISCARD` removes the declared
count clamped to the available balance, anything else raises. -/
def apply_discard (p : Player) (a : Action) : Except String Player :=
  match a with
  | .endTurn => .ok p
  | .discard r count =>
    let available := p.get r
    let actual := if available < count then available else count
    if actual > 0 then .ok (p.setRes r (available - actual)) else .ok p
  | _ => .error ("Expected DISCARD action during discard phase")

/-- `_update_special_achievements`: two sequential scans over the players,
each displacing the incumbent only on a strictly greater count. -/
def update_special_achievements (g : Game) : Game :=
  let lro := (List.range 4).foldl
    (fun owner i =>
      let p := g.players.getD i default
      if p.roads.length ≥ 5 then
        match owner with
        | none => some i
        | some j =>
          if p.roads.length > (g.players.getD j default).roads.length then some i else owner
      else owner) g.longest_road_owner
  let lao := (List.range 4).foldl
    (fun owner i =>
      let p := g.players.getD i default
      if p.knights_played ≥ 3 then
        match owner with
        | none => some i
        | some j =>
          if p.knights_played > (g.players.getD j default).knights_played then some i else owner
      else owner) g.largest_army_owner
  { g with longest_road_owner := lro, largest_army_owner := lao }

/-- `_export_state`. -/
def export_state (e : EngineState) : GameState :=
  { turn := e.turn
    current_player_index := e.current_player_index
    victory_points := (List.range 4).map (get_victory_points e.game)
    resources := (List.range 4).map (player_resources e.game)
    longest_road_owner := e.game.longest_road_owner
    largest_army_owner := e.game.largest_army_owner
    robber_position := e.game.board.robber_position
    pending_discard := e.pending_discard }

/-- Python `max` over a list of naturals (the VP vector is never empty, so
folding from 0 agrees with the source). -/
def listMax (l : List Nat) : Nat := l.foldl Nat.max 0

/-- `_get_winner_index`: `None` below target, else the first seat attaining
the maximum. -/
def get_winner_index (tvp : Nat) (st : GameState) : Option Nat :=
  let best := listMax st.victory_points
  if best < tvp then none
  else (((List.range st.victory_points.length).filter
    (fun i => st.victory_points.getD i 0 = best))).head?

/-- Result of one `step` call: the mutated engine plus the returned triple. -/
structure StepResult where
  engine : EngineState
  state : GameState
  done : Bool
  info : Info

/-- The `# Apply action` try-block of `step`, returning the new game and the
`is_trade` / `is_bank_trade` flags on success. -/
def apply_action (e : EngineState) (a : Action) : Except String (Game × Bool × Bool) :=
  match a with
  | .buildSettlement c =>
    (build_settlement e.game e.current_player_index c true).map (fun g => (g, false, false))
  | .buildRoad pr =>
    (build_road e.game e.current_player_index pr true).map (fun g => (g, false, false))
  | .buildCity c =>
    (upgrade_settlement_to_city e.game e.current_player_index c true).map
      (fun g => (g, false, false))
  | .trade ti r =>
    (apply_trade e.game e.current_player_index ti r).map (fun g => (g, true, false))
  | .bankTrade gv rc =>
    (apply_bank_trade (currentPlayer e) gv rc).map (fun p2 =>
      ({ e.game with players := e.game.players.set e.current_player_index p2 }, false, true))
  | .endTurn => .ok (e.game, false, false)
  | .discard _ _ => .error ("Unknown action type")

/-- Tail of `step` after the roll handling: apply the action (failures are
caught), record success, advance the turn and seat, update achievements,
export, and detect the winner / terminal condition. -/
def step_finish (e : EngineState) (a : Action) (succ0 : Bool) (info0 : Info) : StepResult :=
  let applied := apply_action e a
  let g1 := match applied with
    | .ok (g, _, _) => g
    | .error _ => e.game
  let succ1 := match applied with
    | .ok _ => succ0
    | .error _ => false
  let info1 := match applied with
    | .ok (_, isT, isB) => { info0 with is_trade := isT, is_bank_trade := isB }
    | .error _ => { info0 with action_failed := true }
  let info2 := { info1 with action_succeeded := some succ1 }
  let turn1 := e.turn + 1
  let cur1 := (e.current_player_index + 1) % 4
  let g2 := update_special_achievements g1
  let e1 := { e with game := g2, turn := turn1, current_player_index := cur1 }
  let st := export_state e1
  let w := get_winner_index e.target_vp st
  let done := w.isSome || decide (e.max_turns ≤ turn1)
  let info3 := if done = true ∧ w.isSome then { info2 with winner_index := w } else info2
  ⟨e1, st, done, info3⟩

/-- Roll handling of `step`: on a 7 the over-limit seats are queued (the
queue field is overwritten even when empty) and, if anyone queued, the call
returns immediately; otherwise — and only on a non-7 roll — resources are
distributed before the action is applied. -/
def step_roll (e : EngineState) (d1 d2 : Nat) (y : Nat → Resource) (a : Action)
    (succ0 : Bool) (info0 : Info) : StepResult :=
  let roll := d1 + d2
  let info1 := { info0 with roll := some roll }
  if roll = 7 then
    let info2 := { info1 with robber_rolled := true }
    let q := (List.range 4).filter
      (fun i => (e.game.players.getD i default).total_cards > 7)
    let e1 := { e with players_needing_discard := q }
    if q.isEmpty then step_finish e1 a succ0 info2
    else
      let e2 := { e1 with pending_discard := true, current_player_index := q.headD 0 }
      ⟨e2, export_state e2, false, info2⟩
  else
    step_finish { e with game := add_yield_for_roll y e.game } a succ0 info1

/-- `PyCatanEngine.step`. A failed discard-phase action does not return: the
code falls through to the dice roll and the normal apply path, with the
success flag already false. -/
def step (e : EngineState) (d1 d2 : Nat) (y : Nat → Resource) (a : Action) : StepResult :=
  if discardPhase e then
    match apply_discard (currentPlayer e) a with
    | .ok p2 =>
      let g1 := { e.game with players := e.game.players.set e.current_player_index p2 }
      let q := e.players_needing_discard.erase e.current_player_index
      let e1 :=
        if q.isEmpty then
          { e with game := g1, players_needing_discard := q, pending_discard := false }
        else
          { e with game := g1, players_needing_discard := q,
                   current_player_index := q.headD 0 }
      ⟨e1, export_state e1, false, {}⟩
    | .error _ => step_roll e d1 d2 y a false { action_failed := true }
  else step_roll e d1 d2 y a true {}

/-- Engine states reachable from `start_game`. Dice draws are 1..6. Besides
steps whose action is drawn from `get_legal_actions` (the documented
contract), steps taken during the discard phase may submit an arbitrary
action: the engine catches the validation failure and continues, and such
calls occur in the benchmark whenever the decision-maker hallucinates. -/
inductive Reachable (tvp mt : Nat) : EngineState → Prop
  | start (pick : List Nat → Nat) : Reachable tvp mt (startGame tvp mt pick)
  | stepLegal {s : EngineState} (d1 d2 : Nat) (y : Nat → Resource) (a : Action) :
      Reachable tvp mt s → 1 ≤ d1 → d1 ≤ 6 → 1 ≤ d2 → d2 ≤ 6 →
      a ∈ get_legal_actions s → Reachable tvp mt (step s d1 d2 y a).engine
  | stepDiscardAny {s : EngineState} (d1 d2 : Nat) (y : Nat → Resource) (a : Action) :
      Reachable tvp mt s → 1 ≤ d1 → d1 ≤ 6 → 1 ≤ d2 → d2 ≤ 6 →
      discardPhase s → Reachable tvp mt (step s d1 d2 y a).engine

/-! ### Concrete runs used as witnesses and counterexamples -/

/-- Settlement-choice oracle that always takes the first offered coordinate. -/
def pick0 : List Nat → Nat := fun _ => 0

/-- Yield oracle that always draws lumber. -/
def y0 : Nat → Resource := fun _ => .lumber

/-- Fresh default-parameter game (settlements seeded at 0,1,2,3). -/
def s0 : EngineState := startGame 10 500 pick0

/-- First step rolls 7: every seat holds 10 > 7 cards, so the discard queue
becomes `[0,1,2,3]`. -/
def s1 : EngineState := (step s0 3 4 y0 .endTurn).engine

/-- Seats 0, 1, 2 submit their (only) legal discard. -/
def s2 : EngineState := (step s1 1 1 y0 (.discard .lumber 2)).engine

/-- Second legal discard. -/
def s3 : EngineState := (step s2 1 1 y0 (.discard .lumber 2)).engine

/-- Third legal discard; the queue is now `[3]` with seat 3 current. -/
def s4 : EngineState := (step s3 1 1 y0 (.discard .lumber 2)).engine

/-- Seat 3 submits a build during its discard turn: the discard application
fails, the call falls through to a roll of 5, the build is applied, and the
turn advances to seat 0 — leaving `pending_discard` true with seat 0 not in
the queue. -/
def s5 : EngineState := (step s4 2 3 y0 (.buildSettlement 4)).engine

/-- Alternative continuation from `s4`: seat 3 discards legally, ending the
discard phase. -/
def u5 : EngineState := (step s4 1 1 y0 (.discard .lumber 2)).engine

/-- A second 7 is rolled; every seat still holds 8 > 7 cards. -/
def u6 : EngineState := (step u5 3 4 y0 .endTurn).engine

/-- Four more legal discards bring every seat down to 6 cards. -/
def u7 : EngineState := (step u6 1 1 y0 (.discard .brick 2)).engine

/-- Second discard of the second round. -/
def u8 : EngineState := (step u7 1 1 y0 (.discard .brick 2)).engine

/-- Third discard of the second round. -/
def u9 : EngineState := (step u8 1 1 y0 (.discard .brick 2)).engine

/-- After the fourth discard the engine is back in the normal phase with
every seat at 6 cards — a reachable state where a 7 can be rolled with
nobody over the hand limit. -/
def u10 : EngineState := (step u9 1 1 y0 (.discard .brick 2)).engine

/-- A player holding exactly 4 of each resource. -/
def pW : Player := ⟨fun _ => 4, [], 0⟩

/-- A player holding 4 brick and 2 wool (and nothing else). -/
def pMixed : Player :=
  ⟨fun r => if r = .brick then 4 else if r = .wool then 2 else 0, [], 0⟩

/-- Engine state whose seats all hold 4 of each resource, used to exercise
bank trades through `step`. -/
def eBank : EngineState :=
  { target_vp := 10
    max_turns := 500
    game :=
      { board := initBoard
        players := List.replicate 4 pW
        longest_road_owner := none
        largest_army_owner := none }
    current_player_index := 0
    turn := 0
    pending_discard := false
    players_needing_discard := [] }

/-- Total resource cards over all seats. -/
def sumAllCards (g : Game) : Int := (g.players.map Player.total_cards).sum

/-! ### List helper lemmas -/

theorem getD_eq_of_lt {α} (l : List α) (i : Nat) (d : α) (h : i < l.length) :
    l.getD i d = l[i] := by
  simp [List.getD_eq_getElem?_getD, List.getElem?_eq_getElem h]

theorem getD_eq_of_ge {α} (l : List α) (i : Nat) (d : α) (h : l.length ≤ i) :
    l.getD i d = d := by
  simp [List.getD_eq_getElem?_getD, List.getElem?_eq_none h]

theorem getD_mem_or_eq {α} (l : List α) (i : Nat) (d : α) :
    l.getD i d ∈ l ∨ l.getD i d = d := by
  by_cases h : i < l.length
  · left; rw [getD_eq_of_lt l i d h]; exact List.getElem_mem h
  · right; exact getD_eq_of_ge l i d (Nat.le_of_not_lt h)

theorem getD_set_self {α} (l : List α) (i : Nat) (a d : α) (h : i < l.length) :
    (l.set i a).getD i d = a := by
  simp [List.getD_eq_getElem?_getD, List.getElem?_set, h]

theorem getD_set_ne {α} (l : List α) (i j : Nat) (a d : α) (h : i ≠ j) :
    (l.set i a).getD j d = l.getD j d := by
  simp [List.getD_eq_getElem?_getD, List.getElem?_set, h]

theorem sum_map_set {α} (f : α → Int) (l : List α) (i : Nat) (a d : α) (h : i < l.length) :
    ((l.set i a).map f).sum = (l.map f).sum + f a - f (l.getD i d) := by
  induction l generalizing i with
  | nil => simp at h
  | cons x xs ih =>
    cases i with
    | zero => simp [List.set]; ring
    | succ n =>
      simp only [List.set, List.map, List.sum_cons, List.getD_cons_succ]
      rw [ih n (by simpa using h)]; ring

/-! ### Player helper lemmas -/

theorem get_setRes (p : Player) (r : Resource) (v : Int) (r2 : Resource) :
    (p.setRes r v).get r2 = if r2 = r then v else p.get r2 := rfl

theorem setRes_roads (p : Player) (r : Resource) (v : Int) : (p.setRes r v).roads = p.roads := rfl

theorem setRes_knights (p : Player) (r : Resource) (v : Int) :
    (p.setRes r v).knights_played = p.knights_played := rfl

theorem pay_roads (p : Player) (cost : List (Resource × Int)) :
    (p.pay_resources cost).roads = p.roads := by
  induction cost generalizing p with
  | nil => rfl
  | cons c cs ih => simp only [Player.pay_resources, List.foldl] at ih ⊢; exact ih _

theorem pay_knights (p : Player) (cost : List (Resource × Int)) :
    (p.pay_resources cost).knights_played = p.knights_played := by
  induction cost generalizing p with
  | nil => rfl
  | cons c cs ih => simp only [Player.pay_resources, List.foldl] at ih ⊢; exact ih _

/-- Pointwise effect of `pay_resources`: each resource loses the summed
amounts charged to it. -/
theorem get_pay (p : Player) (cost : List (Resource × Int)) (r : Resource) :
    (p.pay_resources cost).get r = p.get r - ((cost.filter (fun rc => rc.1 = r)).map (·.2)).sum := by
  induction cost generalizing p with
  | nil => simp [Player.pay_resources]
  | cons c cs ih =>
    simp only [Player.pay_resources, List.foldl] at ih ⊢
    rw [ih]
    by_cases h : c.1 = r
    · subst h
      simp [get_setRes, List.filter]
      ring
    · rw [get_setRes]
      rw [if_neg (fun hr => h hr.symm)]
      simp [List.filter, h]

/-- A player satisfies this when no holding is negative. -/
def PlayerNN (p : Player) : Prop := ∀ r, 0 ≤ p.get r

/-- All players in a list have non-negative holdings. -/
def PlayersNN (l : List Player) : Prop := ∀ p ∈ l, PlayerNN p

theorem playerNN_default : PlayerNN (default : Player) := by
  intro r; simp [Player.get, default]

theorem playersNN_getD {l : List Player} (h : PlayersNN l) (i : Nat) :
    PlayerNN (l.getD i default) := by
  rcases getD_mem_or_eq l i default with hm | he
  · exact h _ hm
  · rw [he]; exact playerNN_default

theorem playersNN_set {l : List Player} {p : Player} (h : PlayersNN l) (hp : PlayerNN p)
    (i : Nat) : PlayersNN (l.set i p) := by
  intro q hq
  rcases List.mem_or_eq_of_mem_set hq with hm | he
  · exact h _ hm
  · rw [he]; exact hp

theorem pay_settlement_nonneg {p : Player} (hp : PlayerNN p)
    (hh : p.has_resources SETTLEMENT_COST = true) :
    PlayerNN (p.pay_resources SETTLEMENT_COST) := by
  simp only [Player.has_resources, SETTLEMENT_COST, List.all_cons, List.all_nil,
    Bool.and_eq_true, decide_eq_true_eq] at hh
  intro r
  have := hp r
  cases r <;> simp [get_pay, SETTLEMENT_COST, List.filter] <;> omega

theorem pay_road_nonneg {p : Player} (hp : PlayerNN p)
    (hh : p.has_resources ROAD_COST = true) :
    PlayerNN (p.pay_resources ROAD_COST) := by
  simp only [Player.has_resources, ROAD_COST, List.all_cons, List.all_nil,
    Bool.and_eq_true, decide_eq_true_eq] at hh
  intro r
  have := hp r
  cases r <;> simp [get_pay, ROAD_COST, List.filter] <;> omega

theorem pay_city_nonneg {p : Player} (hp : PlayerNN p)
    (hh : p.has_resources CITY_COST = true) :
    PlayerNN (p.pay_resources CITY_COST) := by
  simp only [Player.has_resources, CITY_COST, List.all_cons, List.all_nil,
    Bool.and_eq_true, decide_eq_true_eq] at hh
  intro r
  have := hp r
  cases r <;> simp [get_pay, CITY_COST, List.filter] <;> omega

/-! ### mapWithIndex lemmas -/

theorem mem_mapWithIndex {f : Nat → Player → Player} {k : Nat} {l : List Player} {q : Player}
    (h : q ∈ mapWithIndex f k l) : ∃ i, i < l.length ∧ q = f (k + i) (l.getD i default) := by
  induction l generalizing k with
  | nil => simp [mapWithIndex] at h
  | cons p ps ih =>
    simp only [mapWithIndex, List.mem_cons] at h
    rcases h with h | h
    · exact ⟨0, by simp, by simpa using h⟩
    · obtain ⟨i, hi, hq⟩ := ih h
      refine ⟨i + 1, by simpa using hi, ?_⟩
      have : k + 1 + i = k + (i + 1) := by omega
      rw [this] at hq
      simpa using hq

theorem length_mapWithIndex (f : Nat → Player → Player) (k : Nat) (l : List Player) :
    (mapWithIndex f k l).length = l.length := by
  induction l generalizing k with
  | nil => rfl
  | cons p ps ih => simp [mapWithIndex, ih]

theorem getD_mapWithIndex (f : Nat → Player → Player) (k : Nat) (l : List Player) (i : Nat)
    (h : i < l.length) :
    (mapWithIndex f k l).getD i default = f (k + i) (l.getD i default) := by
  induction l generalizing k i with
  | nil => simp at h
  | cons p ps ih =>
    cases i with
    | zero => simp [mapWithIndex]
    | succ n =>
      simp only [mapWithIndex, List.getD_cons_succ]
      rw [ih (k + 1) n (by simpa using h)]
      have : k + 1 + n = k + (n + 1) := by omega
      rw [this]

/-! ### Non-negativity preservation through each operation -/

theorem build_settlement_NN {g : Game} {pidx c : Nat} {b : Bool} {g2 : Game}
    (hg : PlayersNN g.players) (h : build_settlement g pidx c b = .ok g2) :
    PlayersNN g2.players := by
  simp only [build_settlement] at h
  split at h
  · cases h
  · split at h
    · cases h
    · rename_i hcost
      injection h with h
      subst h
      apply playersNN_set hg _ pidx
      cases b with
      | false => simpa using playersNN_getD hg pidx
      | true =>
        have hhas : (g.players.getD pidx default).has_resources SETTLEMENT_COST = true := by
          by_contra hn
          simp [Bool.not_eq_true] at hn
          simp [hn] at hcost
        simpa using pay_settlement_nonneg (playersNN_getD hg pidx) hhas

theorem build_road_NN {g : Game} {pidx : Nat} {path : Nat × Nat} {b : Bool} {g2 : Game}
    (hg : PlayersNN g.players) (h : build_road g pidx path b = .ok g2) :
    PlayersNN g2.players := by
  simp only [build_road] at h
  split at h
  · cases h
  · split at h
    · cases h
    · split at h
      · cases h
      · rename_i hcost
        injection h with h
        subst h
        apply playersNN_set hg _ pidx
        have hbase : PlayerNN (if b then
            (g.players.getD pidx default).pay_resources ROAD_COST
          else g.players.getD pidx default) := by
          cases b with
          | false => simpa using playersNN_getD hg pidx
          | true =>
            have hhas : (g.players.getD pidx default).has_resources ROAD_COST = true := by
              by_contra hn
              simp [Bool.not_eq_true] at hn
              simp [hn] at hcost
            simpa using pay_road_nonneg (playersNN_getD hg pidx) hhas
        intro r
        exact hbase r

theorem build_city_NN {g : Game} {pidx c : Nat} {b : Bool} {g2 : Game}
    (hg : PlayersNN g.players) (h : upgrade_settlement_to_city g pidx c b = .ok g2) :
    PlayersNN g2.players := by
  simp only [upgrade_settlement_to_city] at h
  split at h
  · cases h
  · split at h
    · cases h
    · split at h
      · cases h
      · split at h
        · cases h
        · rename_i hcost
          injection h with h
          subst h
          apply playersNN_set hg _ pidx
          cases b with
          | false => simpa using playersNN_getD hg pidx
          | true =>
            have hhas : (g.players.getD pidx default).has_resources CITY_COST = true := by
              by_contra hn
              simp [Bool.not_eq_true] at hn
              simp [hn] at hcost
            simpa using pay_city_nonneg (playersNN_getD hg pidx) hhas

theorem apply_trade_NN {g : Game} {fi ti : Nat} {r : Resource} {g2 : Game}
    (hg : PlayersNN g.players) (h : apply_trade g fi ti r = .ok g2) :
    PlayersNN g2.players := by
  simp only [apply_trade] at h
  split at h
  · cases h
  · split at h
    · cases h
    · split at h
      · cases h
      · rename_i hbal
        injection h with h
        subst h
        have h1 : PlayersNN (g.players.set fi
            ((g.players.getD fi default).setRes r ((g.players.getD fi default).get r - 1))) := by
          apply playersNN_set hg _ fi
          intro r2
          rw [get_setRes]
          split
          · have := playersNN_getD hg fi r
            omega
          · exact playersNN_getD hg fi r2
        apply playersNN_set h1 _ ti
        intro r2
        rw [get_setRes]
        split
        · have := playersNN_getD h1 ti r
          omega
        · exact playersNN_getD h1 ti r2

theorem apply_bank_trade_NN {p p2 : Player} {give recv : Resource}
    (hp : PlayerNN p) (h : apply_bank_trade p give recv = .ok p2) : PlayerNN p2 := by
  simp only [apply_bank_trade] at h
  split at h
  · cases h
  · rename_i h4
    injection h with h
    subst h
    intro r
    rw [get_setRes]
    split
    · rw [get_setRes]
      split
      · omega
      · have := hp recv
        omega
    · rw [get_setRes]
      split
      · omega
      · exact hp r

theorem apply_discard_NN {p p2 : Player} {a : Action}
    (hp : PlayerNN p) (h : apply_discard p a = .ok p2) : PlayerNN p2 := by
  cases a <;> simp only [apply_discard] at h
  case buildSettlement c => cases h
  case buildRoad pr => cases h
  case buildCity c => cases h
  case trade ti r => cases h
  case bankTrade gv rc => cases h
  case endTurn =>
    injection h with h
    subst h
    exact hp
  case discard r count =>
    by_cases hlt : p.get r < count
    · rw [if_pos hlt] at h
      split at h <;> injection h with h <;> subst h
      · intro r2
        rw [get_setRes]
        split
        · omega
        · exact hp r2
      · exact hp
    · rw [if_neg hlt] at h
      split at h <;> injection h with h <;> subst h
      · intro r2
        rw [get_setRes]
        split
        · have := hp r
          omega
        · exact hp r2
      · exact hp

theorem add_yield_NN {y : Nat → Resource} {g : Game} (hg : PlayersNN g.players) :
    PlayersNN (add_yield_for_roll y g).players := by
  intro q hq
  obtain ⟨i, _, hq⟩ := mem_mapWithIndex hq
  subst hq
  intro r
  rw [get_setRes]
  split
  · have := playersNN_getD hg i (y (0 + i))
    omega
  · exact playersNN_getD hg i r

theorem update_special_players (g : Game) :
    (update_special_achievements g).players = g.players := rfl

theorem apply_action_NN {e : EngineState} {a : Action} {g : Game} {t b : Bool}
    (hg : PlayersNN e.game.players) (h : apply_action e a = .ok (g, t, b)) :
    PlayersNN g.players := by
  cases a <;> simp only [apply_action] at h
  case buildSettlement c =>
    cases hb : build_settlement e.game e.current_player_index c true with
    | error s => rw [hb] at h; cases h
    | ok g0 =>
      rw [hb] at h
      simp only [Except.map, Except.ok.injEq, Prod.mk.injEq] at h
      obtain ⟨hg0, -, -⟩ := h
      subst hg0
      exact build_settlement_NN hg hb
  case buildRoad pr =>
    cases hb : build_road e.game e.current_player_index pr true with
    | error s => rw [hb] at h; cases h
    | ok g0 =>
      rw [hb] at h
      simp only [Except.map, Except.ok.injEq, Prod.mk.injEq] at h
      obtain ⟨hg0, -, -⟩ := h
      subst hg0
      exact build_road_NN hg hb
  case buildCity c =>
    cases hb : upgrade_settlement_to_city e.game e.current_player_index c true with
    | error s => rw [hb] at h; cases h
    | ok g0 =>
      rw [hb] at h
      simp only [Except.map, Except.ok.injEq, Prod.mk.injEq] at h
      obtain ⟨hg0, -, -⟩ := h
      subst hg0
      exact build_city_NN hg hb
  case trade ti r =>
    cases hb : apply_trade e.game e.current_player_index ti r with
    | error s => rw [hb] at h; cases h
    | ok g0 =>
      rw [hb] at h
      simp only [Except.map, Except.ok.injEq, Prod.mk.injEq] at h
      obtain ⟨hg0, -, -⟩ := h
      subst hg0
      exact apply_trade_NN hg hb
  case bankTrade gv rc =>
    cases hb : apply_bank_trade (currentPlayer e) gv rc with
    | error s => rw [hb] at h; cases h
    | ok p2 =>
      rw [hb] at h
      simp only [Except.map, Except.ok.injEq, Prod.mk.injEq] at h
      obtain ⟨hg0, -, -⟩ := h
      subst hg0
      exact playersNN_set hg (apply_bank_trade_NN (playersNN_getD hg _) hb) _
  case endTurn =>
    simp only [Except.ok.injEq, Prod.mk.injEq] at h
    obtain ⟨hg0, -, -⟩ := h
    subst hg0
    exact hg
  case discard r c => cases h

theorem step_finish_NN {e : EngineState} {a : Action} {succ0 : Bool} {info0 : Info}
    (hg : PlayersNN e.game.players) :
    PlayersNN (step_finish e a succ0 info0).engine.game.players := by
  simp only [step_finish, update_special_players]
  cases ha : apply_action e a with
  | error s => simpa [ha, update_special_players] using hg
  | ok gtb =>
    obtain ⟨g, t, b⟩ := gtb
    simpa [ha, update_special_players] using apply_action_NN hg ha

theorem step_roll_NN {e : EngineState} {d1 d2 : Nat} {y : Nat → Resource} {a : Action}
    {succ0 : Bool} {info0 : Info} (hg : PlayersNN e.game.players) :
    PlayersNN (step_roll e d1 d2 y a succ0 info0).engine.game.players := by
  simp only [step_roll]
  split
  · split
    · exact step_finish_NN hg
    · exact hg
  · exact step_finish_NN (add_yield_NN hg)

theorem step_NN {e : EngineState} {d1 d2 : Nat} {y : Nat → Resource} {a : Action}
    (hg : PlayersNN e.game.players) :
    PlayersNN (step e d1 d2 y a).engine.game.players := by
  simp only [step]
  split
  · cases ha : apply_discard (currentPlayer e) a with
    | error s => exact step_roll_NN hg
    | ok p2 =>
      have hset : PlayersNN (e.game.players.set e.current_player_index p2) :=
        playersNN_set hg (apply_discard_NN (playersNN_getD hg _) ha) _
      by_cases hq : (e.players_needing_discard.erase e.current_player_index).isEmpty = true
      · simpa [hq] using hset
      · simpa [hq] using hset
  · exact step_roll_NN hg

theorem seed_settlement_NN {pick : List Nat → Nat} {g : Game} (hg : PlayersNN g.players)
    (idx : Nat) : PlayersNN ((seed_settlement pick g idx).players) := by
  simp only [seed_settlement]
  split
  · exact hg
  · cases hb : build_settlement g idx
      ((get_valid_settlement_coords g.board).getD
        (pick (get_valid_settlement_coords g.board) %
          (get_valid_settlement_coords g.board).length) 0) false with
    | ok g2 => simpa [hb] using build_settlement_NN hg hb
    | error s => simpa [hb] using hg

theorem foldl_seed_NN (pick : List Nat → Nat) (l : List Nat) (g : Game)
    (hg : PlayersNN g.players) :
    PlayersNN ((l.foldl (seed_settlement pick) g).players) := by
  induction l generalizing g with
  | nil => exact hg
  | cons i l ih => exact ih _ (seed_settlement_NN hg i)

theorem startGame_NN (tvp mt : Nat) (pick : List Nat → Nat) :
    PlayersNN (startGame tvp mt pick).game.players := by
  simp only [startGame]
  apply foldl_seed_NN
  intro p hp r
  rw [List.eq_of_mem_replicate hp]
  simp [Player.get]

/-! ### Knights / largest-army invariant machinery -/

/-- All players have a zero knights counter. -/
def K0 (l : List Player) : Prop := ∀ p ∈ l, p.knights_played = 0

theorem k0_getD {l : List Player} (hk : K0 l) (i : Nat) :
    (l.getD i default).knights_played = 0 := by
  rcases getD_mem_or_eq l i default with hm | he
  · exact hk _ hm
  · rw [he]; rfl

theorem k0_set {l : List Player} {p : Player} (hk : K0 l) (hp : p.knights_played = 0)
    (i : Nat) : K0 (l.set i p) := by
  intro q hq
  rcases List.mem_or_eq_of_mem_set hq with hm | he
  · exact hk _ hm
  · rw [he]; exact hp

theorem build_settlement_K0 {g : Game} {pidx c : Nat} {b : Bool} {g2 : Game}
    (hk : K0 g.players) (h : build_settlement g pidx c b = .ok g2) :
    K0 g2.players ∧ g2.largest_army_owner = g.largest_army_owner := by
  simp only [build_settlement] at h
  split at h
  · cases h
  · split at h
    · cases h
    · injection h with h
      subst h
      refine ⟨k0_set hk ?_ pidx, rfl⟩
      cases b <;> simpa [pay_knights] using k0_getD hk pidx

theorem build_road_K0 {g : Game} {pidx : Nat} {path : Nat × Nat} {b : Bool} {g2 : Game}
    (hk : K0 g.players) (h : build_road g pidx path b = .ok g2) :
    K0 g2.players ∧ g2.largest_army_owner = g.largest_army_owner := by
  simp only [build_road] at h
  split at h
  · cases h
  · split at h
    · cases h
    · split at h
      · cases h
      · injection h with h
        subst h
        refine ⟨k0_set hk ?_ pidx, rfl⟩
        cases b <;> simpa [pay_knights] using k0_getD hk pidx

theorem build_city_K0 {g : Game} {pidx c : Nat} {b : Bool} {g2 : Game}
    (hk : K0 g.players) (h : upgrade_settlement_to_city g pidx c b = .ok g2) :
    K0 g2.players ∧ g2.largest_army_owner = g.largest_army_owner := by
  simp only [upgrade_settlement_to_city] at h
  split at h
  · cases h
  · split at h
    · cases h
    · split at h
      · cases h
      · split at h
        · cases h
        · injection h with h
          subst h
          refine ⟨k0_set hk ?_ pidx, rfl⟩
          cases b <;> simpa [pay_knights] using k0_getD hk pidx

theorem apply_trade_K0 {g : Game} {fi ti : Nat} {r : Resource} {g2 : Game}
    (hk : K0 g.players) (h : apply_trade g fi ti r = .ok g2) :
    K0 g2.players ∧ g2.largest_army_owner = g.largest_army_owner := by
  simp only [apply_trade] at h
  split at h
  · cases h
  · split at h
    · cases h
    · split at h
      · cases h
      · injection h with h
        subst h
        have h1 : K0 (g.players.set fi
            ((g.players.getD fi default).setRes r ((g.players.getD fi default).get r - 1))) :=
          k0_set hk (by simpa [setRes_knights] using k0_getD hk fi) fi
        exact ⟨k0_set h1 (by simpa [setRes_knights] using k0_getD h1 ti) ti, rfl⟩

theorem apply_bank_trade_K0 {p p2 : Player} {give recv : Resource}
    (hp : p.knights_played = 0) (h : apply_bank_trade p give recv = .ok p2) :
    p2.knights_played = 0 := by
  simp only [apply_bank_trade] at h
  split at h
  · cases h
  · injection h with h
    subst h
    simpa [setRes_knights] using hp

theorem apply_discard_K0 {p p2 : Player} {a : Action}
    (hp : p.knights_played = 0) (h : apply_discard p a = .ok p2) :
    p2.knights_played = 0 := by
  cases a <;> simp only [apply_discard] at h
  case buildSettlement c => cases h
  case buildRoad pr => cases h
  case buildCity c => cases h
  case trade ti r => cases h
  case bankTrade gv rc => cases h
  case endTurn => injection h with h; subst h; exact hp
  case discard r count =>
    split at h <;> split at h <;> injection h with h <;> subst h <;>
      simpa [setRes_knights] using hp

theorem add_yield_K0 {y : Nat → Resource} {g : Game} (hk : K0 g.players) :
    K0 (add_yield_for_roll y g).players := by
  intro q hq
  obtain ⟨i, _, hq⟩ := mem_mapWithIndex hq
  subst hq
  simpa [setRes_knights] using k0_getD hk i

theorem apply_action_K0 {e : EngineState} {a : Action} {g : Game} {t b : Bool}
    (hk : K0 e.game.players) (h : apply_action e a = .ok (g, t, b)) :
    K0 g.players ∧ g.largest_army_owner = e.game.largest_army_owner := by
  cases a <;> simp only [apply_action] at h
  case buildSettlement c =>
    cases hb : build_settlement e.game e.current_player_index c true with
    | error s => rw [hb] at h; cases h
    | ok g0 =>
      rw [hb] at h
      simp only [Except.map, Except.ok.injEq, Prod.mk.injEq] at h
      obtain ⟨hg0, -, -⟩ := h
      subst hg0
      exact build_settlement_K0 hk hb
  case buildRoad pr =>
    cases hb : build_road e.game e.current_player_index pr true with
    | error s => rw [hb] at h; cases h
    | ok g0 =>
      rw [hb] at h
      simp only [Except.map, Except.ok.injEq, Prod.mk.injEq] at h
      obtain ⟨hg0, -, -⟩ := h
      subst hg0
      exact build_road_K0 hk hb
  case buildCity c =>
    cases hb : upgrade_settlement_to_city e.game e.current_player_index c true with
    | error s => rw [hb] at h; cases h
    | ok g0 =>
      rw [hb] at h
      simp only [Except.map, Except.ok.injEq, Prod.mk.injEq] at h
      obtain ⟨hg0, -, -⟩ := h
      subst hg0
      exact build_city_K0 hk hb
  case trade ti r =>
    cases hb : apply_trade e.game e.current_player_index ti r with
    | error s => rw [hb] at h; cases h
    | ok g0 =>
      rw [hb] at h
      simp only [Except.map, Except.ok.injEq, Prod.mk.injEq] at h
      obtain ⟨hg0, -, -⟩ := h
      subst hg0
      exact apply_trade_K0 hk hb
  case bankTrade gv rc =>
    cases hb : apply_bank_trade (currentPlayer e) gv rc with
    | error s => rw [hb] at h; cases h
    | ok p2 =>
      rw [hb] at h
      simp only [Except.map, Except.ok.injEq, Prod.mk.injEq] at h
      obtain ⟨hg0, -, -⟩ := h
      subst hg0
      exact ⟨k0_set hk (apply_bank_trade_K0 (k0_getD hk _) hb) _, rfl⟩
  case endTurn =>
    simp only [Except.ok.injEq, Prod.mk.injEq] at h
    obtain ⟨hg0, -, -⟩ := h
    subst hg0
    exact ⟨hk, rfl⟩
  case discard r c => cases h

/-- With every knights counter at zero, the largest-army scan never updates
its accumulator. -/
theorem lao_fold_id {g : Game} (hk : K0 g.players) (l : List Nat) (o : Option Nat) :
    l.foldl
      (fun owner i =>
        let p := g.players.getD i default
        if p.knights_played ≥ 3 then
          match owner with
          | none => some i
          | some j =>
            if p.knights_played > (g.players.getD j default).knights_played then some i
            else owner
        else owner) o = o := by
  induction l generalizing o with
  | nil => rfl
  | cons i l ih =>
    simp only [List.foldl]
    rw [if_neg (by rw [k0_getD hk i]; omega)]
    exact ih o

theorem update_special_army {g : Game} (hk : K0 g.players) :
    (update_special_achievements g).largest_army_owner = g.largest_army_owner := by
  simp only [update_special_achievements]
  exact lao_fold_id hk (List.range 4) g.largest_army_owner

theorem add_yield_army (y : Nat → Resource) (g : Game) :
    (add_yield_for_roll y g).largest_army_owner = g.largest_army_owner := rfl

theorem step_finish_army {e : EngineState} {a : Action} {succ0 : Bool} {info0 : Info}
    (hk : K0 e.game.players) (ho : e.game.largest_army_owner = none) :
    K0 (step_finish e a succ0 info0).engine.game.players ∧
      (step_finish e a succ0 info0).engine.game.largest_army_owner = none := by
  simp only [step_finish]
  cases ha : apply_action e a with
  | error s =>
    constructor
    · simpa [ha, update_special_players] using hk
    · simpa [ha, update_special_army hk] using ho
  | ok gtb =>
    obtain ⟨g, t, b⟩ := gtb
    obtain ⟨hk2, ho2⟩ := apply_action_K0 hk ha
    constructor
    · simpa [ha, update_special_players] using hk2
    · simp only [ha]
      rw [update_special_army hk2, ho2]
      exact ho

theorem step_roll_army {e : EngineState} {d1 d2 : Nat} {y : Nat → Resource} {a : Action}
    {succ0 : Bool} {info0 : Info}
    (hk : K0 e.game.players) (ho : e.game.largest_army_owner = none) :
    K0 (step_roll e d1 d2 y a succ0 info0).engine.game.players ∧
      (step_roll e d1 d2 y a succ0 info0).engine.game.largest_army_owner = none := by
  simp only [step_roll]
  split
  · split
    · exact step_finish_army hk ho
    · exact ⟨hk, ho⟩
  · exact step_finish_army (e := { e with game := add_yield_for_roll y e.game })
      (add_yield_K0 hk) ho

theorem step_army {e : EngineState} {d1 d2 : Nat} {y : Nat → Resource} {a : Action}
    (hk : K0 e.game.players) (ho : e.game.largest_army_owner = none) :
    K0 (step e d1 d2 y a).engine.game.players ∧
      (step e d1 d2 y a).engine.game.largest_army_owner = none := by
  simp only [step]
  split
  · cases ha : apply_discard (currentPlayer e) a with
    | error s => exact step_roll_army hk ho
    | ok p2 =>
      have hset : K0 (e.game.players.set e.current_player_index p2) :=
        k0_set hk (apply_discard_K0 (k0_getD hk _) ha) _
      by_cases hq : (e.players_needing_discard.erase e.current_player_index).isEmpty = true
      · constructor
        · simpa [hq] using hset
        · simpa [hq] using ho
      · constructor
        · simpa [hq] using hset
        · simpa [hq] using ho
  · exact step_roll_army hk ho

theorem seed_settlement_army {pick : List Nat → Nat} {g : Game} (hk : K0 g.players)
    (ho : g.largest_army_owner = none) (idx : Nat) :
    K0 ((seed_settlement pick g idx).players) ∧
      (seed_settlement pick g idx).largest_army_owner = none := by
  simp only [seed_settlement]
  split
  · exact ⟨hk, ho⟩
  · cases hb : build_settlement g idx
      ((get_valid_settlement_coords g.board).getD
        (pick (get_valid_settlement_coords g.board) %
          (get_valid_settlement_coords g.board).length) 0) false with
    | ok g2 =>
      obtain ⟨hk2, ho2⟩ := build_settlement_K0 hk hb
      constructor
      · simpa [hb] using hk2
      · simp only [hb]
        rw [ho2, ho]
    | error s =>
      constructor
      · simpa [hb] using hk
      · simpa [hb] using ho

theorem foldl_seed_army (pick : List Nat → Nat) (l : List Nat) (g : Game)
    (hk : K0 g.players) (ho : g.largest_army_owner = none) :
    K0 ((l.foldl (seed_settlement pick) g).players) ∧
      (l.foldl (seed_settlement pick) g).largest_army_owner = none := by
  induction l generalizing g with
  | nil => exact ⟨hk, ho⟩
  | cons i l ih =>
    obtain ⟨hk2, ho2⟩ := seed_settlement_army hk ho i
    exact ih _ hk2 ho2

theorem startGame_army (tvp mt : Nat) (pick : List Nat → Nat) :
    K0 (startGame tvp mt pick).game.players ∧
      (startGame tvp mt pick).game.largest_army_owner = none := by
  simp only [startGame]
  apply foldl_seed_army
  · intro p hp
    rw [List.eq_of_mem_replicate hp]
  · rfl

/-! ### Claim C4 -/

/-- C4: in every engine state reachable from `start_game` — stepping with
actions drawn from `get_legal_actions`, or with arbitrary actions while the
discard-phase guard is active (the engine catches those failures) — every
seat's count of every resource is non-negative: builds are gated on
`has_resources`, gift trades on a positive balance, bank trades on a balance
of at least 4, and discards are clamped to the available balance. -/
theorem resources_nonneg {tvp mt : Nat} {s : EngineState} (h : Reachable tvp mt s) :
    ∀ p ∈ s.game.players, ∀ r, 0 ≤ p.get r := by
  induction h with
  | start pick => exact startGame_NN tvp mt pick
  | stepLegal d1 d2 y a hr hb1 hb2 hb3 hb4 hmem ih => exact step_NN ih
  | stepDiscardAny d1 d2 y a hr hb1 hb2 hb3 hb4 hph ih => exact step_NN ih

/-- Witness for C4 at the concrete initial state of a default game. -/
theorem resources_nonneg_witness :
    Reachable 10 500 s0 ∧ ∀ p ∈ s0.game.players, ∀ r, 0 ≤ p.get r :=
  ⟨Reachable.start pick0, resources_nonneg (Reachable.start pick0)⟩

/-! ### Claim C9 -/

/-- C9: in every reachable engine state every seat's `knights_played`
counter is 0 (nothing ever increments it) and the largest-army owner is
`None` (the ≥ 3 knights threshold in `_update_special_achievements` is never
met), so the +2 largest-army victory-point term is 0 for every seat. -/
theorem largest_army_unreachable {tvp mt : Nat} {s : EngineState} (h : Reachable tvp mt s) :
    (∀ p ∈ s.game.players, p.knights_played = 0) ∧
      s.game.largest_army_owner = none ∧
      ∀ i : Nat, (if s.game.largest_army_owner = some i then 2 else 0) = 0 := by
  have main : K0 s.game.players ∧ s.game.largest_army_owner = none := by
    induction h with
    | start pick => exact startGame_army tvp mt pick
    | stepLegal d1 d2 y a hr hb1 hb2 hb3 hb4 hmem ih => exact step_army ih.1 ih.2
    | stepDiscardAny d1 d2 y a hr hb1 hb2 hb3 hb4 hph ih => exact step_army ih.1 ih.2
  refine ⟨main.1, main.2, ?_⟩
  intro i
  rw [main.2]
  simp

/-- Witness for C9 at the concrete initial state of a default game. -/
theorem largest_army_unreachable_witness :
    Reachable 10 500 s0 ∧
      ((∀ p ∈ s0.game.players, p.knights_played = 0) ∧
        s0.game.largest_army_owner = none ∧
        ∀ i : Nat, (if s0.game.largest_army_owner = some i then 2 else 0) = 0) :=
  ⟨Reachable.start pick0, largest_army_unreachable (Reachable.start pick0)⟩

/-! ### Claim C3 -/

/-- C3: a step taken outside the discard branch whose roll is 7 while some
seat holds more than 7 cards enters the discard phase: the queue is exactly
the over-limit seats in ascending order, the current seat becomes the queue
front, the call returns `done = false` immediately, and neither the game
(resources, board) nor the turn counter changes — the submitted action is
dropped. -/
theorem robber_discard_entry (e : EngineState) (d1 d2 : Nat) (y : Nat → Resource) (a : Action)
    (hnd : ¬ discardPhase e) (h7 : d1 + d2 = 7)
    (hover : ∃ i, i < 4 ∧ 7 < (e.game.players.getD i default).total_cards) :
    (step e d1 d2 y a).engine.pending_discard = true ∧
    (step e d1 d2 y a).engine.players_needing_discard.Pairwise (· < ·) ∧
    (∀ i, i ∈ (step e d1 d2 y a).engine.players_needing_discard ↔
        i < 4 ∧ 7 < (e.game.players.getD i default).total_cards) ∧
    (step e d1 d2 y a).engine.current_player_index
      = (step e d1 d2 y a).engine.players_needing_discard.headD 0 ∧
    (step e d1 d2 y a).engine.players_needing_discard ≠ [] ∧
    (step e d1 d2 y a).done = false ∧
    (step e d1 d2 y a).engine.game = e.game ∧
    (step e d1 d2 y a).engine.turn = e.turn := by
  obtain ⟨i0, hi0, hover0⟩ := hover
  have hmem : i0 ∈ (List.range 4).filter
      (fun i => (e.game.players.getD i default).total_cards > 7) := by
    rw [List.mem_filter]
    exact ⟨List.mem_range.mpr hi0, by simpa using hover0⟩
  have hq : ¬ ((List.range 4).filter
      (fun i => (e.game.players.getD i default).total_cards > 7)).isEmpty = true := by
    intro hE
    rw [List.isEmpty_iff] at hE
    rw [hE] at hmem
    cases hmem
  simp only [step, if_neg hnd, step_roll, h7, eq_self_iff_true, if_true, if_neg hq]
  refine ⟨by trivial, ?_, ?_, by trivial, ?_, by trivial, by trivial, by trivial⟩
  · exact List.Pairwise.filter _ (List.pairwise_lt_range 4)
  · intro i
    rw [List.mem_filter, List.mem_range]
    simp
  · intro hE
    rw [hE] at hmem
    cases hmem

/-- Witness for C3: the very first step of a default game with a 7 roll (all
seats start with 10 cards). -/
theorem robber_discard_entry_witness :
    (¬ discardPhase s0) ∧ 3 + 4 = 7 ∧
      (0 < 4 ∧ 7 < (s0.game.players.getD 0 default).total_cards) ∧
      ((step s0 3 4 y0 .endTurn).engine.pending_discard = true ∧
       (step s0 3 4 y0 .endTurn).engine.players_needing_discard.Pairwise (· < ·) ∧
       (∀ i, i ∈ (step s0 3 4 y0 .endTurn).engine.players_needing_discard ↔
           i < 4 ∧ 7 < (s0.game.players.getD i default).total_cards) ∧
       (step s0 3 4 y0 .endTurn).engine.current_player_index
         = (step s0 3 4 y0 .endTurn).engine.players_needing_discard.headD 0 ∧
       (step s0 3 4 y0 .endTurn).engine.players_needing_discard ≠ [] ∧
       (step s0 3 4 y0 .endTurn).done = false ∧
       (step s0 3 4 y0 .endTurn).engine.game = s0.game ∧
       (step s0 3 4 y0 .endTurn).engine.turn = s0.turn) :=
  ⟨by decide, rfl, ⟨by decide, by decide⟩,
    robber_discard_entry s0 3 4 y0 .endTurn (by decide) rfl ⟨0, by decide, by decide⟩⟩

/-! ### Board-preservation helpers and claim C5 -/

theorem update_special_board (g : Game) :
    (update_special_achievements g).board = g.board := rfl

theorem add_yield_board (y : Nat → Resource) (g : Game) :
    (add_yield_for_roll y g).board = g.board := rfl

theorem step_finish_board_of_err {e : EngineState} {a : Action} {succ0 : Bool} {info0 : Info}
    (herr : ∃ s, apply_action e a = .error s) :
    (step_finish e a succ0 info0).engine.game.board = e.game.board := by
  obtain ⟨s, hs⟩ := herr
  simp only [step_finish, hs, update_special_board]

theorem step_board_of_fail (e : EngineState) (d1 d2 : Nat) (y : Nat → Resource) (a : Action)
    (hfail : ∀ e2 : EngineState, e2.game.board = e.game.board →
      ∃ s, apply_action e2 a = .error s) :
    (step e d1 d2 y a).engine.game.board = e.game.board := by
  have hroll : ∀ succ0 info0,
      (step_roll e d1 d2 y a succ0 info0).engine.game.board = e.game.board := by
    intro succ0 info0
    simp only [step_roll]
    split
    · split
      · exact step_finish_board_of_err (hfail _ rfl)
      · rfl
    · exact step_finish_board_of_err
        (e := { e with game := add_yield_for_roll y e.game }) (hfail _ (add_yield_board y e.game))
  simp only [step]
  split
  · cases ha : apply_discard (currentPlayer e) a with
    | error s => exact hroll _ _
    | ok p2 =>
      by_cases hq : (e.players_needing_discard.erase e.current_player_index).isEmpty = true
      · simp [hq]
      · simp [hq]
  · exact hroll _ _

/-- C5: the `Option`-valued board maps enforce at most one building per
intersection and one owner per path structurally; operationally, a step
whose action targets an already-occupied intersection or an already-owned
path is rejected before any mutation, leaving the board unchanged (in every
phase of `step`). -/
theorem board_exclusivity (e : EngineState) (d1 d2 : Nat) (y : Nat → Resource) :
    (∀ c : Nat, (e.game.board.intersections.getD c none).isSome = true →
       (step e d1 d2 y (.buildSettlement c)).engine.game.board = e.game.board) ∧
    (∀ pr : Nat × Nat, (e.game.board.paths.getD pr.1 none).isSome = true →
       (step e d1 d2 y (.buildRoad pr)).engine.game.board = e.game.board) := by
  constructor
  · intro c hc
    apply step_board_of_fail
    intro e2 hb
    simp only [apply_action, build_settlement, hb]
    rw [if_pos (Or.inr hc)]
    exact ⟨_, rfl⟩
  · intro pr hpr
    apply step_board_of_fail
    intro e2 hb
    simp only [apply_action, build_road, hb]
    by_cases hk : pr.1 < 11 ∧ pr.2 = pr.1 + 1
    · rw [if_neg (not_not_intro hk), if_pos hpr]
      exact ⟨_, rfl⟩
    · rw [if_pos hk]
      exact ⟨_, rfl⟩

/-- A state with an owned path: seat 0 builds road `(0, 1)` from the start
state (roll 3, so the build is applied). -/
def v1 : EngineState := (step s0 1 2 y0 (.buildRoad (0, 1))).engine

/-- Witness for C5: building on the seeded settlement at intersection 0 and
on the road laid in `v1` both leave the board unchanged. -/
theorem board_exclusivity_witness :
    ((s0.game.board.intersections.getD 0 none).isSome = true ∧
      (step s0 1 1 y0 (.buildSettlement 0)).engine.game.board = s0.game.board) ∧
    ((v1.game.board.paths.getD 0 none).isSome = true ∧
      (step v1 1 1 y0 (.buildRoad (0, 1))).engine.game.board = v1.game.board) :=
  ⟨⟨by decide, (board_exclusivity s0 1 1 y0).1 0 (by decide)⟩,
   ⟨by decide, (board_exclusivity v1 1 1 y0).2 (0, 1) (by decide)⟩⟩

/-! ### Trade bookkeeping helpers -/

theorem total_setRes (p : Player) (r : Resource) (v : Int) :
    (p.setRes r v).total_cards = p.total_cards + v - p.get r := by
  cases r <;>
    simp [Player.total_cards, Player.setRes, Player.get, RESOURCE_LIST] <;> ring

theorem sumAll_set (g : Game) (i : Nat) (p : Player) (h : i < g.players.length) :
    (((g.players.set i p).map Player.total_cards).sum : Int)
      = (g.players.map Player.total_cards).sum + p.total_cards
        - (g.players.getD i default).total_cards := by
  exact sum_map_set Player.total_cards g.players i p default h

/-! ### Claim C6 -/

/-- C6: a successful gift trade conserves the total card count over all
seats (the unit moves from giver to receiver, with every other seat and
resource untouched), and a gift of a resource the giver does not hold (the
balance-≤-0 guard) fails without producing any new state. -/
theorem gift_trade_conservation (g g2 : Game) (fi ti : Nat) (r : Resource) :
    (apply_trade g fi ti r = .ok g2 →
      sumAllCards g2 = sumAllCards g ∧
      (fi ≠ ti →
        playerRes g2 fi r = playerRes g fi r - 1 ∧
        playerRes g2 ti r = playerRes g ti r + 1 ∧
        (∀ r2, r2 ≠ r → playerRes g2 fi r2 = playerRes g fi r2 ∧
          playerRes g2 ti r2 = playerRes g ti r2) ∧
        (∀ j, j ≠ fi → j ≠ ti → ∀ r2, playerRes g2 j r2 = playerRes g j r2))) ∧
    (playerRes g fi r ≤ 0 → ∀ g3, apply_trade g fi ti r ≠ .ok g3) := by
  constructor
  · intro hok
    simp only [apply_trade] at hok
    split at hok
    · cases hok
    · split at hok
      · cases hok
      · split at hok
        · cases hok
        · rename_i hfi hti hbal
          injection hok with hok
          subst hok
          have hfi2 : fi < g.players.length := by omega
          have hti2 : ti < g.players.length := by omega
          have hlen1 : (g.players.set fi
              ((g.players.getD fi default).setRes r
                ((g.players.getD fi default).get r - 1))).length = g.players.length :=
            List.length_set g.players fi _
          constructor
          · simp only [sumAllCards]
            rw [sum_map_set Player.total_cards _ ti _ default (by omega)]
            rw [sum_map_set Player.total_cards _ fi _ default hfi2]
            rw [total_setRes, total_setRes]
            ring
          · intro hne
            have hgti : (g.players.set fi
                ((g.players.getD fi default).setRes r
                  ((g.players.getD fi default).get r - 1))).getD ti default
                = g.players.getD ti default := getD_set_ne _ fi ti _ default hne
            refine ⟨?_, ?_, ?_, ?_⟩
            · simp only [playerRes]
              rw [getD_set_ne _ ti fi _ default (Ne.symm hne),
                getD_set_self _ fi _ default hfi2, get_setRes, if_pos rfl]
            · simp only [playerRes]
              rw [getD_set_self _ ti _ default (by omega), get_setRes, if_pos rfl, hgti]
            · intro r2 hr2
              constructor
              · simp only [playerRes]
                rw [getD_set_ne _ ti fi _ default (Ne.symm hne),
                  getD_set_self _ fi _ default hfi2, get_setRes, if_neg hr2]
              · simp only [playerRes]
                rw [getD_set_self _ ti _ default (by omega), get_setRes, if_neg hr2, hgti]
            · intro j hjf hjt r2
              simp only [playerRes]
              rw [getD_set_ne _ ti j _ default (fun hh => hjt hh.symm),
                getD_set_ne _ fi j _ default (fun hh => hjf hh.symm)]
  · intro hle g3 hok
    simp only [apply_trade] at hok
    split at hok
    · cases hok
    · split at hok
      · cases hok
      · split at hok
        · cases hok
        · rename_i hbal
          exact hbal hle

/-- Witness for C6: seat 0 gifts one brick to seat 1 from the start state,
conserving the total of 40 cards; the failure arm is exercised on a resource
balance forced to zero (seat 0 holds no lumber after its first discard in
`s2`). -/
theorem gift_trade_conservation_witness :
    (∃ g2, apply_trade s0.game 0 1 .brick = .ok g2 ∧
      sumAllCards g2 = sumAllCards s0.game ∧
      playerRes g2 0 .brick = playerRes s0.game 0 .brick - 1 ∧
      playerRes g2 1 .brick = playerRes s0.game 1 .brick + 1) ∧
    (playerRes s2.game 0 .lumber ≤ 0 ∧
      ∀ g3, apply_trade s2.game 0 1 .lumber ≠ .ok g3) := by
  constructor
  · obtain ⟨g2, hg2⟩ : ∃ g2, apply_trade s0.game 0 1 .brick = .ok g2 := ⟨_, rfl⟩
    have h := (gift_trade_conservation s0.game g2 0 1 .brick).1 hg2
    exact ⟨g2, hg2, h.1, (h.2 (by decide)).1, ((h.2 (by decide)).2).1⟩
  · exact ⟨by decide,
      (gift_trade_conservation s2.game s2.game 0 1 .lumber).2 (by decide)⟩

/-! ### Claim C7 (corrected) -/

/-- Counterexample to C7 as stated: a bank trade whose give and receive
resources coincide is accepted when the seat holds ≥ 4 of it, and the
balance ends at `old - 3`, not `old - 4` — the increment reads the already
decremented balance, so the give-resource does not decrease by exactly 4. -/
theorem bank_trade_same_kind_cex :
    pW.get .brick = 4 ∧
    ∃ p2, apply_bank_trade pW .brick .brick = .ok p2 ∧
      p2.get .brick = 1 ∧ p2.get .brick ≠ pW.get .brick - 4 := by
  refine ⟨rfl, ⟨_, rfl, by decide, by decide⟩⟩

/-- C7 amended: for a bank trade between two distinct resources, a balance
below 4 fails with no new state, and otherwise the give resource drops by
exactly 4, the receive resource rises by exactly 1, and everything else
about the player (other balances, roads, knights) is untouched — the
operation never mutates any other seat, since it only receives the acting
player. -/
theorem bank_trade_all_or_nothing (p : Player) (give recv : Resource) (hne : give ≠ recv) :
    (p.get give < 4 → apply_bank_trade p give recv = .error ("Need 4 for bank trade")) ∧
    (4 ≤ p.get give → ∃ p2, apply_bank_trade p give recv = .ok p2 ∧
      p2.get give = p.get give - 4 ∧
      p2.get recv = p.get recv + 1 ∧
      (∀ r2, r2 ≠ give → r2 ≠ recv → p2.get r2 = p.get r2) ∧
      p2.roads = p.roads ∧ p2.knights_played = p.knights_played) := by
  constructor
  · intro h4
    simp only [apply_bank_trade]
    rw [if_pos h4]
  · intro h4
    refine ⟨(p.setRes give (p.get give - 4)).setRes recv
        ((p.setRes give (p.get give - 4)).get recv + 1), ?_, ?_, ?_, ?_, rfl, rfl⟩
    · simp only [apply_bank_trade]
      rw [if_neg (by omega)]
    · rw [get_setRes, if_neg hne, get_setRes, if_pos rfl]
    · rw [get_setRes, if_pos rfl, get_setRes, if_neg (Ne.symm hne)]
    · intro r2 h2g h2r
      rw [get_setRes, if_neg h2r, get_setRes, if_neg h2g]

/-- Witness for the amended C7: with 4 brick and 2 wool, trading wool fails
(balance below 4) and trading brick for wool nets −4 brick / +1 wool. -/
theorem bank_trade_all_or_nothing_witness :
    (pMixed.get .wool < 4 ∧
      apply_bank_trade pMixed .wool .brick = .error ("Need 4 for bank trade")) ∧
    (4 ≤ pMixed.get .brick ∧
      ∃ p2, apply_bank_trade pMixed .brick .wool = .ok p2 ∧
        p2.get .brick = pMixed.get .brick - 4 ∧
        p2.get .wool = pMixed.get .wool + 1 ∧
        (∀ r2, r2 ≠ .brick → r2 ≠ .wool → p2.get r2 = pMixed.get r2) ∧
        p2.roads = pMixed.roads ∧ p2.knights_played = pMixed.knights_played) :=
  ⟨⟨by decide, (bank_trade_all_or_nothing pMixed .wool .brick (by decide)).1 (by decide)⟩,
   ⟨by decide, (bank_trade_all_or_nothing pMixed .brick .wool (by decide)).2 (by decide)⟩⟩

/-! ### Claim C10 -/

theorem playerRes_update_special (g : Game) (i : Nat) (r : Resource) :
    playerRes (update_special_achievements g) i r = playerRes g i r := rfl

/-- C10: a same-kind 4:1 bank trade (never offered by `_bank_trade_actions`,
but accepted by the engine when submitted) succeeds whenever the player
holds at least 4 of the resource at apply time, netting a decrement by 4
followed by an increment by 1, i.e. exactly −3. Submitted through a
normal-phase `step` with a non-7 roll, the action is recorded as succeeded
and the final balance is the post-yield balance minus 3. -/
theorem bank_trade_same_kind (e : EngineState) (d1 d2 : Nat) (y : Nat → Resource) (r : Resource)
    (hnd : ¬ discardPhase e) (h7 : ¬ d1 + d2 = 7)
    (hcur : e.current_player_index < e.game.players.length)
    (h4 : 4 ≤ playerRes e.game e.current_player_index r) :
    (∀ p : Player, 4 ≤ p.get r →
      ∃ p2, apply_bank_trade p r r = .ok p2 ∧ p2.get r = p.get r - 3) ∧
    (step e d1 d2 y (.bankTrade r r)).info.action_succeeded = some true ∧
    (step e d1 d2 y (.bankTrade r r)).info.action_failed = false ∧
    playerRes (step e d1 d2 y (.bankTrade r r)).engine.game e.current_player_index r
      = playerRes e.game e.current_player_index r
        + (if y e.current_player_index = r then 1 else 0) - 3 := by
  have habGen : ∀ p : Player, 4 ≤ p.get r →
      ∃ p2, apply_bank_trade p r r = .ok p2 ∧ p2.get r = p.get r - 3 := by
    intro p hp
    refine ⟨(p.setRes r (p.get r - 4)).setRes r
        ((p.setRes r (p.get r - 4)).get r + 1), ?_, ?_⟩
    · simp only [apply_bank_trade]
      rw [if_neg (by omega)]
    · rw [get_setRes, if_pos rfl, get_setRes, if_pos rfl]
      ring
  have hcpY : (currentPlayer { e with game := add_yield_for_roll y e.game }).get r
      = playerRes e.game e.current_player_index r
        + (if y e.current_player_index = r then 1 else 0) := by
    show ((mapWithIndex (fun i p => p.setRes (y i) (p.get (y i) + 1))
        0 e.game.players).getD e.current_player_index default).get r = _
    rw [getD_mapWithIndex _ 0 _ _ hcur]
    rw [get_setRes]
    simp only [Nat.zero_add]
    by_cases hyr : y e.current_player_index = r
    · rw [if_pos hyr.symm, if_pos hyr, hyr]
      rfl
    · rw [if_neg (fun hh => hyr hh.symm), if_neg hyr]
      simp [playerRes]
  obtain ⟨p2, hp2, hp2r⟩ := habGen
    (currentPlayer { e with game := add_yield_for_roll y e.game })
    (by rw [hcpY]; split <;> omega)
  have ha : apply_action { e with game := add_yield_for_roll y e.game } (.bankTrade r r)
      = .ok ({ add_yield_for_roll y e.game with
                players := (add_yield_for_roll y e.game).players.set
                  e.current_player_index p2 }, false, true) := by
    show (apply_bank_trade
        (currentPlayer { e with game := add_yield_for_roll y e.game }) r r).map _ = _
    rw [hp2]
    rfl
  have hstep : step e d1 d2 y (.bankTrade r r)
      = step_finish { e with game := add_yield_for_roll y e.game } (.bankTrade r r) true
          { roll := some (d1 + d2) } := by
    simp only [step, if_neg hnd, step_roll, if_neg h7]
  have hlen2 : e.current_player_index < (add_yield_for_roll y e.game).players.length := by
    simpa [add_yield_for_roll, length_mapWithIndex] using hcur
  refine ⟨habGen, ?_, ?_, ?_⟩
  · rw [hstep]
    simp only [step_finish, ha]
    split <;> rfl
  · rw [hstep]
    simp only [step_finish, ha]
    split <;> rfl
  · rw [hstep]
    simp only [step_finish, ha]
    rw [playerRes_update_special]
    simp only [playerRes]
    rw [getD_set_self _ _ _ default hlen2]
    rw [hp2r, hcpY]
    rfl

/-- Witness for C10: every seat of `eBank` holds 4 of each resource; seat 0
submits a brick-for-brick bank trade with a roll of 3 and ends at
`4 + 0 − 3 = 1` brick (the yield oracle adds lumber). -/
theorem bank_trade_same_kind_witness :
    (¬ discardPhase eBank) ∧ ¬ (1 + 2 = 7) ∧
      eBank.current_player_index < eBank.game.players.length ∧
      4 ≤ playerRes eBank.game eBank.current_player_index .brick ∧
      ((∀ p : Player, 4 ≤ p.get .brick →
        ∃ p2, apply_bank_trade p .brick .brick = .ok p2 ∧ p2.get .brick = p.get .brick - 3) ∧
      (step eBank 1 2 y0 (.bankTrade .brick .brick)).info.action_succeeded = some true ∧
      (step eBank 1 2 y0 (.bankTrade .brick .brick)).info.action_failed = false ∧
      playerRes (step eBank 1 2 y0 (.bankTrade .brick .brick)).engine.game
          eBank.current_player_index .brick
        = playerRes eBank.game eBank.current_player_index .brick
          + (if y0 eBank.current_player_index = .brick then 1 else 0) - 3) :=
  ⟨by decide, by decide, by decide, by decide,
    bank_trade_same_kind eBank 1 2 y0 .brick (by decide) (by decide) (by decide) (by decide)⟩

/-! ### Maximum and first-index lemmas for the winner rule -/

theorem foldl_max_init_le (l : List Nat) (a : Nat) : a ≤ l.foldl Nat.max a := by
  induction l generalizing a with
  | nil => exact Nat.le_refl a
  | cons b bs ih => exact Nat.le_trans (Nat.le_max_left a b) (ih (Nat.max a b))

theorem le_foldl_max (l : List Nat) (a x : Nat) (hx : x ∈ l) : x ≤ l.foldl Nat.max a := by
  induction l generalizing a with
  | nil => cases hx
  | cons b bs ih =>
    rcases List.mem_cons.mp hx with h | h
    · subst h
      exact Nat.le_trans (Nat.le_max_right a x) (foldl_max_init_le bs (Nat.max a x))
    · exact ih (Nat.max a b) h

theorem foldl_max_mem_or (l : List Nat) (a : Nat) :
    l.foldl Nat.max a = a ∨ l.foldl Nat.max a ∈ l := by
  induction l generalizing a with
  | nil => exact Or.inl rfl
  | cons b bs ih =>
    rcases ih (Nat.max a b) with h | h
    · by_cases hab : b ≤ a
      · left
        simpa [Nat.max_eq_left hab] using h
      · right
        have hmx : Nat.max a b = b := Nat.max_eq_right (Nat.le_of_not_le hab)
        rw [List.foldl_cons, h, hmx]
        exact List.mem_cons_self b bs
    · exact Or.inr (List.mem_cons_of_mem b h)

theorem listMax_mem {l : List Nat} (h : l ≠ []) : listMax l ∈ l := by
  rcases foldl_max_mem_or l 0 with h0 | h0
  · cases l with
    | nil => exact absurd rfl h
    | cons b bs =>
      have hb : b ≤ listMax (b :: bs) := le_foldl_max _ 0 b (List.mem_cons_self b bs)
      have hz : listMax (b :: bs) = 0 := h0
      rw [hz] at hb ⊢
      have : b = 0 := Nat.le_zero.mp hb
      rw [← this]
      exact List.mem_cons_self b bs
  · exact h0

theorem le_listMax {l : List Nat} {x : Nat} (hx : x ∈ l) : x ≤ listMax l :=
  le_foldl_max l 0 x hx

theorem head?_filter_mem {l : List Nat} {p : Nat → Bool} {j : Nat}
    (h : (l.filter p).head? = some j) : j ∈ l ∧ p j = true := by
  have hm : j ∈ l.filter p := by
    cases hl : l.filter p with
    | nil => rw [hl] at h; cases h
    | cons a as =>
      rw [hl] at h
      injection h with h
      rw [← h]
      exact List.mem_cons_self a as
  exact ⟨(List.mem_filter.mp hm).1, (List.mem_filter.mp hm).2⟩

theorem head?_filter_min {l : List Nat} {p : Nat → Bool} {j : Nat}
    (hl : l.Pairwise (· < ·)) (h : (l.filter p).head? = some j) :
    ∀ k ∈ l, p k = true → j ≤ k := by
  induction l with
  | nil => intro k hk; cases hk
  | cons a as ih =>
    intro k hk hpk
    rw [List.filter_cons] at h
    cases hpa : p a with
    | true =>
      rw [hpa] at h
      simp only [if_true] at h
      injection h with h
      rcases List.mem_cons.mp hk with hke | hk2
      · omega
      · have := (List.pairwise_cons.mp hl).1 k hk2
        omega
    | false =>
      rw [hpa] at h
      simp only [Bool.false_eq_true, if_false] at h
      rcases List.mem_cons.mp hk with hke | hk2
      · rw [hke] at hpk
        rw [hpk] at hpa
        cases hpa
      · exact ih (List.pairwise_cons.mp hl).2 h k hk2 hpk

theorem head?_filter_isSome {l : List Nat} {p : Nat → Bool} {x : Nat}
    (hx : x ∈ l) (hp : p x = true) : (l.filter p).head? ≠ none := by
  intro hE
  rw [List.head?_eq_none_iff] at hE
  have hm : x ∈ l.filter p := List.mem_filter.mpr ⟨hx, hp⟩
  rw [hE] at hm
  cases hm

/-- Below the target, `_get_winner_index` reports nobody. -/
theorem get_winner_none {tvp : Nat} {st : GameState}
    (h : listMax st.victory_points < tvp) : get_winner_index tvp st = none := by
  simp only [get_winner_index]
  rw [if_pos h]

/-- At or above the target, `_get_winner_index` reports the lowest seat
attaining the maximum victory-point count. -/
theorem get_winner_some {tvp : Nat} {st : GameState} (hne : st.victory_points ≠ [])
    (hbest : tvp ≤ listMax st.victory_points) :
    ∃ j, get_winner_index tvp st = some j ∧
      st.victory_points.getD j 0 = listMax st.victory_points ∧
      j < st.victory_points.length ∧
      ∀ k, k < j → st.victory_points.getD k 0 < listMax st.victory_points := by
  have hmem : listMax st.victory_points ∈ st.victory_points := listMax_mem hne
  obtain ⟨m, hm, hvm⟩ := List.mem_iff_getElem.mp hmem
  have hpredm : decide (st.victory_points.getD m 0 = listMax st.victory_points) = true := by
    simp only [decide_eq_true_eq]
    rw [getD_eq_of_lt _ m 0 hm]
    exact hvm
  have hsome := head?_filter_isSome
    (p := fun i => decide (st.victory_points.getD i 0 = listMax st.victory_points))
    (List.mem_range.mpr hm) hpredm
  obtain ⟨j, hj⟩ : ∃ j, ((List.range st.victory_points.length).filter
      (fun i => decide (st.victory_points.getD i 0 = listMax st.victory_points))).head?
        = some j := by
    cases hh : ((List.range st.victory_points.length).filter
        (fun i => decide (st.victory_points.getD i 0 = listMax st.victory_points))).head? with
    | none => exact absurd hh hsome
    | some j => exact ⟨j, rfl⟩
  obtain ⟨hjr, hjp⟩ := head?_filter_mem hj
  refine ⟨j, ?_, ?_, List.mem_range.mp hjr, ?_⟩
  · simp only [get_winner_index]
    rw [if_neg (Nat.not_lt.mpr hbest)]
    exact hj
  · simpa using hjp
  · intro k hkj
    have hkl : k < st.victory_points.length := Nat.lt_trans hkj (List.mem_range.mp hjr)
    have hle : st.victory_points.getD k 0 ≤ listMax st.victory_points := by
      rw [getD_eq_of_lt _ k 0 hkl]
      exact le_listMax (List.getElem_mem hkl)
    rcases Nat.lt_or_ge (st.victory_points.getD k 0) (listMax st.victory_points) with h | h
    · exact h
    · exfalso
      have heq : st.victory_points.getD k 0 = listMax st.victory_points :=
        Nat.le_antisymm hle h
      have hpk : decide (st.victory_points.getD k 0 = listMax st.victory_points) = true := by
        simp only [decide_eq_true_eq]
        exact heq
      have := head?_filter_min (List.pairwise_lt_range _) hj k (List.mem_range.mpr hkl) hpk
      omega

theorem export_vps_ne (e : EngineState) : (export_state e).victory_points ≠ [] := by
  simp [export_state]

/-- Winner bookkeeping of the normal-turn tail: `done` is set iff a winner
exists or the turn cap is met, and `winner_index` is reported exactly when a
winner exists. -/
theorem step_finish_winner_char (e : EngineState) (a : Action) (succ0 : Bool) (info0 : Info)
    (hw : info0.winner_index = none) :
    (step_finish e a succ0 info0).engine.turn = e.turn + 1 ∧
    (e.target_vp ≤ listMax (step_finish e a succ0 info0).state.victory_points →
      (step_finish e a succ0 info0).done = true ∧
      ∃ j, (step_finish e a succ0 info0).info.winner_index = some j ∧
        (step_finish e a succ0 info0).state.victory_points.getD j 0
          = listMax (step_finish e a succ0 info0).state.victory_points ∧
        ∀ k, k < j → (step_finish e a succ0 info0).state.victory_points.getD k 0
          < listMax (step_finish e a succ0 info0).state.victory_points) ∧
    (listMax (step_finish e a succ0 info0).state.victory_points < e.target_vp →
      (step_finish e a succ0 info0).info.winner_index = none ∧
      ((step_finish e a succ0 info0).done = true ↔
        e.max_turns ≤ e.turn + 1)) := by
  cases ha : apply_action e a with
  | error s =>
    simp only [step_finish, ha]
    refine ⟨by trivial, ?_, ?_⟩
    · intro hbest
      obtain ⟨j, hjw, hjv, hjlen, hjmin⟩ := get_winner_some (export_vps_ne _) hbest
      rw [hjw]
      constructor
      · simp
      · refine ⟨j, ?_, hjv, hjmin⟩
        rw [if_pos ⟨by simp, by simp⟩]
    · intro hlt
      have hwn := get_winner_none hlt
      rw [hwn]
      constructor
      · rw [if_neg (by simp)]
        exact hw
      · simp
  | ok gtb =>
    obtain ⟨g, t, b⟩ := gtb
    simp only [step_finish, ha]
    refine ⟨by trivial, ?_, ?_⟩
    · intro hbest
      obtain ⟨j, hjw, hjv, hjlen, hjmin⟩ := get_winner_some (export_vps_ne _) hbest
      rw [hjw]
      constructor
      · simp
      · refine ⟨j, ?_, hjv, hjmin⟩
        rw [if_pos ⟨by simp, by simp⟩]
    · intro hlt
      have hwn := get_winner_none hlt
      rw [hwn]
      constructor
      · rw [if_neg (by simp)]
        exact hw
      · simp

/-! ### Claim C8 -/

/-- C8: for a step that completes a normal turn (not the discard branch, and
no 7-with-an-over-limit-seat early return): if the maximum victory-point
total of the exported state reaches `target_vp`, the call is done and
reports the lowest seat attaining that maximum (ties keep the lowest
index); otherwise no winner is reported and the call is done exactly when
the incremented turn counter has reached `max_turns`. -/
theorem winner_lowest_index (e : EngineState) (d1 d2 : Nat) (y : Nat → Resource) (a : Action)
    (hnd : ¬ discardPhase e)
    (h7 : d1 + d2 = 7 → ∀ i, i < 4 → (e.game.players.getD i default).total_cards ≤ 7) :
    (step e d1 d2 y a).engine.turn = e.turn + 1 ∧
    (e.target_vp ≤ listMax (step e d1 d2 y a).state.victory_points →
      (step e d1 d2 y a).done = true ∧
      ∃ j, (step e d1 d2 y a).info.winner_index = some j ∧
        (step e d1 d2 y a).state.victory_points.getD j 0
          = listMax (step e d1 d2 y a).state.victory_points ∧
        ∀ k, k < j → (step e d1 d2 y a).state.victory_points.getD k 0
          < listMax (step e d1 d2 y a).state.victory_points) ∧
    (listMax (step e d1 d2 y a).state.victory_points < e.target_vp →
      (step e d1 d2 y a).info.winner_index = none ∧
      ((step e d1 d2 y a).done = true ↔ e.max_turns ≤ e.turn + 1)) := by
  by_cases h77 : d1 + d2 = 7
  · have hqe : (List.range 4).filter
        (fun i => (e.game.players.getD i default).total_cards > 7) = [] := by
      rw [List.filter_eq_nil_iff]
      intro i hi
      simp only [decide_eq_true_eq, not_lt]
      exact h7 h77 i (List.mem_range.mp hi)
    have hred : step e d1 d2 y a
        = step_finish { e with players_needing_discard := [] } a true
            { roll := some 7, robber_rolled := true } := by
      simp only [step, if_neg hnd, step_roll, h77, eq_self_iff_true, if_true, hqe,
        List.isEmpty_nil]
    rw [hred]
    exact step_finish_winner_char { e with players_needing_discard := [] } a true
      { roll := some 7, robber_rolled := true } rfl
  · have hred : step e d1 d2 y a
        = step_finish { e with game := add_yield_for_roll y e.game } a true
            { roll := some (d1 + d2) } := by
      simp only [step, if_neg hnd, step_roll, if_neg h77]
    rw [hred]
    exact step_finish_winner_char { e with game := add_yield_for_roll y e.game } a true
      { roll := some (d1 + d2) } rfl

/-- A default game with `target_vp = 1`: the four seeded settlements already
meet the target, so the first completed turn reports a winner. -/
def sW : EngineState := startGame 1 500 pick0

/-- Witness for C8: the first completed turn of `sW` is done and reports
seat 0, the lowest of the four seats tied at the maximum of 1 VP. -/
theorem winner_lowest_index_witness :
    (¬ discardPhase sW) ∧
    sW.target_vp ≤ listMax (step sW 1 2 y0 .endTurn).state.victory_points ∧
    (step sW 1 2 y0 .endTurn).engine.turn = sW.turn + 1 ∧
    (step sW 1 2 y0 .endTurn).done = true ∧
    ∃ j, (step sW 1 2 y0 .endTurn).info.winner_index = some j ∧
      (step sW 1 2 y0 .endTurn).state.victory_points.getD j 0
        = listMax (step sW 1 2 y0 .endTurn).state.victory_points ∧
      ∀ k, k < j → (step sW 1 2 y0 .endTurn).state.victory_points.getD k 0
        < listMax (step sW 1 2 y0 .endTurn).state.victory_points := by
  have h := winner_lowest_index sW 1 2 y0 .endTurn (by decide)
    (by intro hh; exact absurd hh (by decide))
  have hM : sW.target_vp ≤ listMax (step sW 1 2 y0 .endTurn).state.victory_points := by decide
  obtain ⟨hturn, harm, -⟩ := h
  obtain ⟨hdone, j, hj⟩ := harm hM
  exact ⟨by decide, hM, hturn, hdone, j, hj⟩

/-! ### Claim C1 (corrected) -/

/-- Everything `_discard_actions` produces is a discard or an end-turn. -/
theorem discard_actions_kinds (p : Player) :
    ∀ a ∈ discard_actions p, a.kind = ActionType.DISCARD ∨ a.kind = ActionType.END_TURN := by
  intro a ha
  simp only [discard_actions] at ha
  split at ha
  · rw [List.mem_singleton] at ha
    right
    rw [ha]
    rfl
  · split at ha
    · by_cases hmx : p.get (maxResBy p) > 0
      · rw [if_pos hmx] at ha
        split at ha
        · rw [List.mem_singleton] at ha
          right
          rw [ha]
          rfl
        · rw [List.mem_singleton] at ha
          left
          rw [ha]
          rfl
      · rw [if_neg hmx] at ha
        simp only [List.isEmpty_nil, if_true] at ha
        rw [List.mem_singleton] at ha
        right
        rw [ha]
        rfl
    · split at ha
      · rw [List.mem_singleton] at ha
        right
        rw [ha]
        rfl
      · obtain ⟨r, hr, hsome⟩ := List.mem_filterMap.mp ha
        split at hsome
        · injection hsome with hsome
          left
          rw [← hsome]
          rfl
        · cases hsome

/-- C1 amended: whenever `pending_discard` is set AND the current seat is in
the discard queue — the guard the engine actually uses — `get_legal_actions`
returns only `DISCARD`/`END_TURN` kinds. (The claim as stated, quantified
over all reachable states with `pending_discard` alone, is refuted by
`discard_phase_exclusivity_cex`: after a failed discard-phase action the
call falls through to the normal path and rotates the current seat out of
the queue with `pending_discard` still true.) -/
theorem discard_phase_exclusivity (e : EngineState)
    (h1 : e.pending_discard = true) (h2 : e.current_player_index ∈ e.players_needing_discard) :
    ∀ a ∈ get_legal_actions e, a.kind = ActionType.DISCARD ∨ a.kind = ActionType.END_TURN := by
  intro a ha
  rw [get_legal_actions] at ha
  split at ha
  · exact discard_actions_kinds _ a ha
  · rename_i hph
    exact absurd ⟨h1, h2⟩ hph

/-- Witness for the amended C1 in the first discard phase of a real game. -/
theorem discard_phase_exclusivity_witness :
    s1.pending_discard = true ∧
    s1.current_player_index ∈ s1.players_needing_discard ∧
    ∀ a ∈ get_legal_actions s1,
      a.kind = ActionType.DISCARD ∨ a.kind = ActionType.END_TURN :=
  ⟨by decide, by decide, discard_phase_exclusivity s1 (by decide) (by decide)⟩

theorem reach_s0 : Reachable 10 500 s0 := Reachable.start pick0

theorem reach_s1 : Reachable 10 500 s1 :=
  Reachable.stepLegal 3 4 y0 .endTurn reach_s0
    (by decide) (by decide) (by decide) (by decide) (by decide)

theorem reach_s2 : Reachable 10 500 s2 :=
  Reachable.stepLegal 1 1 y0 (.discard .lumber 2) reach_s1
    (by decide) (by decide) (by decide) (by decide) (by decide)

theorem reach_s3 : Reachable 10 500 s3 :=
  Reachable.stepLegal 1 1 y0 (.discard .lumber 2) reach_s2
    (by decide) (by decide) (by decide) (by decide) (by decide)

theorem reach_s4 : Reachable 10 500 s4 :=
  Reachable.stepLegal 1 1 y0 (.discard .lumber 2) reach_s3
    (by decide) (by decide) (by decide) (by decide) (by decide)

theorem reach_s5 : Reachable 10 500 s5 :=
  Reachable.stepDiscardAny 2 3 y0 (.buildSettlement 4) reach_s4
    (by decide) (by decide) (by decide) (by decide) (by decide)

/-- Counterexample to C1 as stated: `s5` is reachable (the step into it
submits a build during seat 3's discard turn, which fails validation, falls
through to a roll of 5 and is applied, advancing the seat), it has
`pending_discard = true`, and `get_legal_actions` offers a
`BUILD_SETTLEMENT` action because the now-current seat 0 is not in the
remaining discard queue. -/
theorem discard_phase_exclusivity_cex :
    Reachable 10 500 s5 ∧
    s5.pending_discard = true ∧
    Action.buildSettlement 5 ∈ get_legal_actions s5 ∧
    (Action.buildSettlement 5).kind ≠ ActionType.DISCARD ∧
    (Action.buildSettlement 5).kind ≠ ActionType.END_TURN :=
  ⟨reach_s5, by decide, by decide, by decide, by decide⟩

/-! ### Claim C2 (corrected) -/

/-- C2 amended: outside the discard branch, on a non-7 roll every seat's
holding of its drawn resource is incremented by 1 and only then is the
submitted action validated and applied (`step` factors through
`step_finish` on the yielded state); on a 7 roll with no seat over the hand
limit, the engine skips distribution entirely (`add_yield_for_roll` sits in
the `else` of the roll check) and proceeds to apply the action on the
unchanged game. -/
theorem yield_before_action (e : EngineState) (d1 d2 : Nat) (y : Nat → Resource) (a : Action)
    (hnd : ¬ discardPhase e) :
    (d1 + d2 ≠ 7 →
      (∀ i, i < e.game.players.length → ∀ r,
        playerRes (add_yield_for_roll y e.game) i r
          = playerRes e.game i r + (if r = y i then 1 else 0)) ∧
      step e d1 d2 y a
        = step_finish { e with game := add_yield_for_roll y e.game } a true
            { roll := some (d1 + d2) }) ∧
    ((d1 + d2 = 7 ∧ ∀ i, i < 4 → (e.game.players.getD i default).total_cards ≤ 7) →
      step e d1 d2 y a
        = step_finish { e with players_needing_discard := [] } a true
            { roll := some 7, robber_rolled := true }) := by
  constructor
  · intro h7
    constructor
    · intro i hi r
      simp only [playerRes, add_yield_for_roll]
      rw [getD_mapWithIndex _ 0 _ _ hi, get_setRes]
      simp only [Nat.zero_add]
      by_cases hyr : r = y i
      · rw [if_pos hyr, if_pos hyr, hyr]
      · rw [if_neg hyr, if_neg hyr]
        omega
    · simp only [step, if_neg hnd, step_roll, if_neg h7]
  · rintro ⟨h77, hle⟩
    have hqe : (List.range 4).filter
        (fun i => (e.game.players.getD i default).total_cards > 7) = [] := by
      rw [List.filter_eq_nil_iff]
      intro i hi
      simp only [decide_eq_true_eq, not_lt]
      exact hle i (List.mem_range.mp hi)
    simp only [step, if_neg hnd, step_roll, h77, eq_self_iff_true, if_true, hqe,
      List.isEmpty_nil]

/-- Witness for the amended C2 on the non-7 arm at the start state. -/
theorem yield_before_action_witness :
    (¬ discardPhase s0) ∧ (1 + 2 ≠ 7) ∧
    ((∀ i, i < s0.game.players.length → ∀ r,
        playerRes (add_yield_for_roll y0 s0.game) i r
          = playerRes s0.game i r + (if r = y0 i then 1 else 0)) ∧
      step s0 1 2 y0 .endTurn
        = step_finish { s0 with game := add_yield_for_roll y0 s0.game } .endTurn true
            { roll := some (1 + 2) }) :=
  ⟨by decide, by decide, (yield_before_action s0 1 2 y0 .endTurn (by decide)).1 (by decide)⟩

theorem reach_u5 : Reachable 10 500 u5 :=
  Reachable.stepLegal 1 1 y0 (.discard .lumber 2) reach_s4
    (by decide) (by decide) (by decide) (by decide) (by decide)

theorem reach_u6 : Reachable 10 500 u6 :=
  Reachable.stepLegal 3 4 y0 .endTurn reach_u5
    (by decide) (by decide) (by decide) (by decide) (by decide)

theorem reach_u7 : Reachable 10 500 u7 :=
  Reachable.stepLegal 1 1 y0 (.discard .brick 2) reach_u6
    (by decide) (by decide) (by decide) (by decide) (by decide)

theorem reach_u8 : Reachable 10 500 u8 :=
  Reachable.stepLegal 1 1 y0 (.discard .brick 2) reach_u7
    (by decide) (by decide) (by decide) (by decide) (by decide)

theorem reach_u9 : Reachable 10 500 u9 :=
  Reachable.stepLegal 1 1 y0 (.discard .brick 2) reach_u8
    (by decide) (by decide) (by decide) (by decide) (by decide)

theorem reach_u10 : Reachable 10 500 u10 :=
  Reachable.stepLegal 1 1 y0 (.discard .brick 2) reach_u9
    (by decide) (by decide) (by decide) (by decide) (by decide)

/-- Counterexample to C2 as stated: `u10` is a reachable normal-phase state
in which every seat holds 6 ≤ 7 cards; a step with dice summing to 7 then
distributes nothing — every seat's every resource count is unchanged —
whereas the claim promises one incremented resource per seat. -/
theorem yield_distribution_cex :
    Reachable 10 500 u10 ∧
    u10.pending_discard = false ∧
    3 + 4 = 7 ∧
    (∀ i, i < 4 → (u10.game.players.getD i default).total_cards ≤ 7) ∧
    (∀ i, i < 4 → ∀ r : Resource,
      playerRes (step u10 3 4 y0 .endTurn).engine.game i r = playerRes u10.game i r) :=
  ⟨reach_u10, by decide, rfl, by decide, by decide⟩

end CatanEnv
